import Mathlib

/-!
Verification of the RoboQL query compiler and pagination engine of the
roboto-python-sdk repository, as described by its specification: the
lexer/parser for the textual query language, the entity schema registry,
the semantic resolver, the filter compiler lowering to the wire form, and
the paginated result cursor.  The compiler pipeline and the cursor are
embedded as executable Lean functions and their contracts are proved as
theorems.
-/

namespace RoboQL


/-! ## Characters and digits -/

/-- Double-quote character, written numerically. -/
def dquote : Char := Char.ofNat 34

/-- Single-quote character, written numerically. -/
def squote : Char := Char.ofNat 39

/-- Backslash character, written numerically. -/
def bslash : Char := Char.ofNat 92

/-- Whitespace recognised between tokens. -/
def isSpaceChar (c : Char) : Bool :=
  c.toNat = 32 || c.toNat = 9 || c.toNat = 10 || c.toNat = 13

/-- ASCII decimal digit. -/
def isDigitChar (c : Char) : Bool :=
  48 ≤ c.toNat && c.toNat ≤ 57

/-- ASCII letter. -/
def isAlphaChar (c : Char) : Bool :=
  (97 ≤ c.toNat && c.toNat ≤ 122) || (65 ≤ c.toNat && c.toNat ≤ 90)

/-- Character allowed to start an identifier. -/
def isIdentStart (c : Char) : Bool :=
  isAlphaChar c || c.toNat = 95

/-- Character allowed inside an identifier. -/
def isIdentChar (c : Char) : Bool :=
  isIdentStart c || isDigitChar c

/-- Numeric value of a digit character. -/
def digitVal (c : Char) : Nat := c.toNat - 48

/-- Digit character for a value below ten. -/
def digitChar (n : Nat) : Char := Char.ofNat (48 + n)

/-- Decimal reading of a digit string (most significant first). -/
def digitsToNat (l : List Char) : Nat :=
  l.foldl (fun a c => 10 * a + digitVal c) 0

/-- Decimal rendering of a natural number (most significant first), by
structural recursion on a digit-count fuel. -/
def natDigitsF : Nat → Nat → List Char
  | 0, _ => []
  | fuel + 1, n =>
    if n < 10 then [digitChar n]
    else natDigitsF fuel (n / 10) ++ [digitChar (n % 10)]

/-- Decimal rendering of a natural number (most significant first). -/
def natDigits (n : Nat) : List Char :=
  natDigitsF (n + 1) n

/-- Decimal rendering of an integer, with a leading minus sign when negative. -/
def intDigits (i : Int) : List Char :=
  if i < 0 then '-' :: natDigits (-i).toNat else natDigits i.toNat

/-! ## Scanners used by the lexer -/
/-- Scan the body of a quoted string literal, honouring backslash escaping,
up to the closing quote `q`.  Returns the unescaped content and the input
remaining after the closing quote, or `none` when the literal is
unterminated. -/
def scanStr (q : Char) : List Char → Option (List Char × List Char)
  | [] => none
  | c :: cs =>
    if c = q then some ([], cs)
    else if c = bslash then
      match cs with
      | [] => none
      | d :: ds =>
        match scanStr q ds with
        | some (s, r) => some (d :: s, r)
        | none => none
    else
      match scanStr q cs with
      | some (s, r) => some (c :: s, r)
      | none => none

/-- Scan raw bracket content up to the closing bracket.  The entire content
is taken verbatim as one piece; no inner tokenisation happens. -/
def scanBr : List Char → Option (List Char × List Char)
  | [] => none
  | c :: cs =>
    if c = ']' then some ([], cs)
    else
      match scanBr cs with
      | some (s, r) => some (c :: s, r)
      | none => none

/-! ## Tokens

Modelled from the spec: a Token is a lexical unit — identifier, string
literal, number literal, operator, bracket, dot, parenthesis — immutable
once produced and owned solely by the parsing pass.  Keywords (`AND`, `OR`,
`NOT`, `CONTAINS`, `NOT_CONTAINS`, boolean literals) are distinguished from
plain identifiers during lexing.  A numeric literal is kept as a sign, a
decimal mantissa and a power-of-ten exponent (value `±m·10^e`), normalised
so that the mantissa is not divisible by ten; integer, decimal and
scientific spellings all reduce to this form.  Bracket content is captured
verbatim as a single token. -/
inductive Token
  | ident (s : String)
  | kAnd
  | kOr
  | kNot
  | kContains
  | kNotContains
  | kTrue
  | kFalse
  | str (s : String)
  | num (neg : Bool) (m : Nat) (e : Int)
  | opEq
  | opNe
  | opGt
  | opGe
  | opLt
  | opLe
  | lparen
  | rparen
  | dot
  | bracketed (s : String)
deriving DecidableEq, Repr

/-- Keyword classification of a lexed identifier spelling. -/
def classify (l : List Char) : Token :=
  if l = "AND".data then .kAnd
  else if l = "OR".data then .kOr
  else if l = "NOT".data then .kNot
  else if l = "CONTAINS".data then .kContains
  else if l = "NOT_CONTAINS".data then .kNotContains
  else if l = "true".data then .kTrue
  else if l = "false".data then .kFalse
  else .ident (String.mk l)

/-- Fraction part of a numeric literal: a dot followed by at least one
digit.  When absent the input is returned unchanged. -/
def takeFrac : List Char → List Char × List Char
  | c :: d :: rest =>
    if c.toNat = 46 && isDigitChar d then
      ((d :: rest).takeWhile isDigitChar, (d :: rest).dropWhile isDigitChar)
    else ([], c :: d :: rest)
  | l => ([], l)

/-- Digits of a scientific-notation exponent, with an optional sign.
Returns `none` when no well-formed exponent digits follow. -/
def expDigits : List Char → Option (Int × List Char)
  | c :: rest =>
    if c.toNat = 45 then
      match rest with
      | d :: _ =>
        if isDigitChar d then
          some (-(digitsToNat (rest.takeWhile isDigitChar) : Int), rest.dropWhile isDigitChar)
        else none
      | [] => none
    else if c.toNat = 43 then
      match rest with
      | d :: _ =>
        if isDigitChar d then
          some ((digitsToNat (rest.takeWhile isDigitChar) : Int), rest.dropWhile isDigitChar)
        else none
      | [] => none
    else if isDigitChar c then
      some ((digitsToNat ((c :: rest).takeWhile isDigitChar) : Int),
        (c :: rest).dropWhile isDigitChar)
    else none
  | [] => none

/-- Exponent part of a numeric literal: an `e`/`E` marker followed by
optionally signed digits.  A marker not followed by digits is left in the
input (it is not part of the number). -/
def takeExp : List Char → Option Int × List Char
  | c :: rest =>
    if c.toNat = 101 || c.toNat = 69 then
      match expDigits rest with
      | some (i, r) => (some i, r)
      | none => (none, c :: rest)
    else (none, c :: rest)
  | [] => (none, [])

/-- Normalise a mantissa/exponent pair by moving factors of ten from the
mantissa into the exponent, by structural recursion on a fuel bound. -/
def normNumF : Nat → Nat → Int → Nat × Int
  | 0, m, e => (m, e)
  | fuel + 1, m, e =>
    if m ≠ 0 ∧ m % 10 = 0 then normNumF fuel (m / 10) (e + 1) else (m, e)

/-- Normalise a mantissa/exponent pair by moving factors of ten from the
mantissa into the exponent. -/
def normNum (m : Nat) (e : Int) : Nat × Int :=
  normNumF (m + 1) m e

/-- Scan one numeric literal starting at a digit: integer part, optional
fraction, optional exponent, all folded into the normalised
mantissa/exponent representation. -/
def numScan (l : List Char) : Token × List Char :=
  let i := l.takeWhile isDigitChar
  let r1 := l.dropWhile isDigitChar
  let fr := takeFrac r1
  let ex := takeExp fr.2
  let m0 := digitsToNat (i ++ fr.1)
  let e0 := (ex.1.getD 0) - (fr.1.length : Int)
  let me := normNum m0 e0
  (Token.num false me.1 me.2, ex.2)

/-- Attach a leading minus sign to a freshly scanned numeric token;
negative zero is normalised to plain zero. -/
def negTok : Token → Token
  | .num _ m e => .num (decide (m ≠ 0)) m e
  | t => t

/-! ## The lexer -/
/-- Lexing failure: malformed query text (reported as a syntax error). -/
structure LexErr where
  msg : String
deriving DecidableEq, Repr

/-- Prepend a token to the result of lexing the rest of the input. -/
def consTok (t : Token) : Except LexErr (List Token) → Except LexErr (List Token)
  | .ok ts => .ok (t :: ts)
  | .error e => .error e

/-- Modelled from the spec: the lexer converts raw query text into tokens —
identifiers/keywords, single- or double-quoted string literals with
backslash escaping, numeric literals in integer, decimal and scientific
notation, comparison operators, parentheses, dots and bracketed
index/key accesses (whose unquoted content is taken verbatim up to the
closing bracket as one token).  Malformed text (unterminated literals,
unbalanced brackets, unknown characters) is a syntax error, never a silent
no-op.  The concrete lexer of the repository is not part of the reviewed
sources, so this function realises the lexical rules stated in the spec. -/
inductive LexStep
  | emit (t : Token) (rest : List Char)
  | skip (rest : List Char)
  | fail (msg : String)
deriving DecidableEq, Repr

/-- One lexing step at a nonempty input: skip whitespace, emit one token
with the remaining input, or fail. -/
def lexStep (c : Char) (cs : List Char) : LexStep :=
  if isSpaceChar c then .skip cs
  else if isIdentStart c then
    .emit (classify (c :: cs.takeWhile isIdentChar)) (cs.dropWhile isIdentChar)
  else if isDigitChar c then
    .emit (numScan (c :: cs)).1 (numScan (c :: cs)).2
  else if c.toNat = 45 then
    match cs with
    | d :: tl =>
      if isDigitChar d then .emit (negTok (numScan (d :: tl)).1) (numScan (d :: tl)).2
      else .fail "unexpected character"
    | [] => .fail "unexpected character"
  else if c = dquote || c = squote then
    match scanStr c cs with
    | some (s, r) => .emit (.str (String.mk s)) r
    | none => .fail "unterminated string literal"
  else if c.toNat = 91 then
    match scanBr cs with
    | some (s, r) =>
      if s.isEmpty then .fail "empty brackets"
      else .emit (.bracketed (String.mk s)) r
    | none => .fail "unbalanced bracket"
  else if c.toNat = 40 then .emit .lparen cs
  else if c.toNat = 41 then .emit .rparen cs
  else if c.toNat = 46 then .emit .dot cs
  else if c.toNat = 61 then .emit .opEq cs
  else if c.toNat = 33 then
    match cs with
    | d :: r => if d.toNat = 61 then .emit .opNe r else .fail "expected = after !"
    | [] => .fail "expected = after !"
  else if c.toNat = 62 then
    match cs with
    | d :: r => if d.toNat = 61 then .emit .opGe r else .emit .opGt (d :: r)
    | [] => .emit .opGt []
  else if c.toNat = 60 then
    match cs with
    | d :: r => if d.toNat = 61 then .emit .opLe r else .emit .opLt (d :: r)
    | [] => .emit .opLt []
  else .fail "unexpected character"

def lexGoF : Nat → List Char → Except LexErr (List Token)
  | 0, _ => .error ⟨"lexer fuel exhausted"⟩
  | _, [] => .ok []
  | fuel + 1, c :: cs =>
    match lexStep c cs with
    | .emit t rest => consTok t (lexGoF fuel rest)
    | .skip rest => lexGoF fuel rest
    | .fail m => .error ⟨m⟩

/-- Modelled from the spec: the lexer entry point, with fuel ample for any
input (each step consumes at least one character). -/
def lexGo (l : List Char) : Except LexErr (List Token) :=
  lexGoF (l.length + 1) l

/-! ## Abstract syntax -/
/-- Parsing failure: a syntax error with an expected-token description. -/
structure PErr where
  msg : String
deriving DecidableEq, Repr

/-- Modelled from the spec: a Field Path segment — a plain name
(`dataset`), an indexed access (`topics[0]`) or a keyed access
(`msgpaths[/vehicle/speed]`).  Per the documented quirk of §4.1, an
explicit index `0` and the unindexed form denote the same access, so the
parser represents both by the plain-name form and an explicit index is
kept only when nonzero. -/
inductive Segment
  | nm (s : String)
  | idx (s : String) (i : Nat)
  | key (s : String) (k : String)
deriving DecidableEq, Repr

/-- Comparison operators of the query language. -/
inductive CompOp
  | eq
  | ne
  | gt
  | ge
  | lt
  | le
  | contains
  | notContains
deriving DecidableEq, Repr

/-- Literal values: string, number (sign/mantissa/exponent, canonical) or
boolean. -/
inductive Literal
  | lstr (s : String)
  | lnum (neg : Bool) (m : Nat) (e : Int)
  | lbool (b : Bool)
deriving DecidableEq, Repr

/-- Modelled from the spec: the AST — Comparison Nodes (a Field Path, an
operator and a literal) combined by binary left-associatively folded
`AND`/`OR` Boolean Nodes and unary `NOT`.  The node set is closed, as a
tagged variant. -/
inductive Ast
  | cmp (path : List Segment) (op : CompOp) (lit : Literal)
  | conj (a b : Ast)
  | disj (a b : Ast)
  | neg (a : Ast)
deriving DecidableEq, Repr

/-- Interpret bracket content: an all-digit content is an index (an index
of zero is the first element, identified with the unindexed form), any
other content is an open-ended key taken verbatim. -/
def brSeg (s : String) (k : String) : Segment :=
  if k.data.all isDigitChar then
    if digitsToNat k.data = 0 then .nm s else .idx s (digitsToNat k.data)
  else .key s k

/-- Read one optional bracket access following a field name. -/
def segFrom (s : String) : List Token → Segment × List Token
  | .bracketed k :: rest => (brSeg s k, rest)
  | rest => (.nm s, rest)

/-- Read the remaining dot-separated segments of a field path. -/
def parsePathAux : List Segment → List Token → Except PErr (List Segment × List Token)
  | acc, .dot :: .ident s :: .bracketed k :: rest => parsePathAux (acc ++ [brSeg s k]) rest
  | acc, .dot :: .ident s :: rest => parsePathAux (acc ++ [.nm s]) rest
  | _, .dot :: _ => .error ⟨"expected field name after dot"⟩
  | acc, ts => .ok (acc, ts)

/-- Comparison operator denoted by a token, when any. -/
def asOp : Token → Option CompOp
  | .opEq => some .eq
  | .opNe => some .ne
  | .opGt => some .gt
  | .opGe => some .ge
  | .opLt => some .lt
  | .opLe => some .le
  | .kContains => some .contains
  | .kNotContains => some .notContains
  | _ => none

/-- Literal denoted by a token, when any. -/
def asLit : Token → Option Literal
  | .str s => some (.lstr s)
  | .num neg m e => some (.lnum neg m e)
  | .kTrue => some (.lbool true)
  | .kFalse => some (.lbool false)
  | _ => none

/-- Parse one Comparison Node: a field path, an operator and a literal. -/
def parseComp : List Token → Except PErr (Ast × List Token)
  | .ident s :: rest =>
    match parsePathAux [(segFrom s rest).1] (segFrom s rest).2 with
    | .error e => .error e
    | .ok (segs, r1) =>
      match r1 with
      | t :: r2 =>
        match asOp t with
        | some op =>
          match r2 with
          | lt :: r3 =>
            match asLit lt with
            | some l => .ok (.cmp segs op l, r3)
            | none => .error ⟨"expected literal value"⟩
          | [] => .error ⟨"expected literal value"⟩
        | none => .error ⟨"expected comparison operator"⟩
      | [] => .error ⟨"expected comparison operator"⟩
  | _ => .error ⟨"expected field path"⟩

/-! Modelled from the spec: recursive-descent parsing with precedence
parenthesised expression > `NOT` (unary) > comparison > `AND` > `OR`;
`AND`/`OR` are binary and a chain folds into a left-leaning tree.  The
fuel argument bounds recursion depth; the entry point supplies fuel ample
for any token list, so running out of fuel can only mean malformed deep
nesting. -/
mutual

/-- Unary level of the grammar: `NOT`, parenthesised expressions and
comparisons. -/
def parseNotF : Nat → List Token → Except PErr (Ast × List Token)
  | 0, _ => .error ⟨"query too deeply nested"⟩
  | f + 1, ts =>
    match ts with
    | .kNot :: rest =>
      match parseNotF f rest with
      | .ok (a, r) => .ok (.neg a, r)
      | .error e => .error e
    | .lparen :: rest =>
      match parseOrF f rest with
      | .ok (a, r) =>
        match r with
        | .rparen :: r2 => .ok (a, r2)
        | _ => .error ⟨"expected closing parenthesis"⟩
      | .error e => .error e
    | _ => parseComp ts

def parseAndF : Nat → List Token → Except PErr (Ast × List Token)
  | 0, _ => .error ⟨"query too deeply nested"⟩
  | f + 1, ts =>
    match parseNotF f ts with
    | .ok (a, r) => andLoopF f a r
    | .error e => .error e

def andLoopF : Nat → Ast → List Token → Except PErr (Ast × List Token)
  | 0, _, _ => .error ⟨"query too deeply nested"⟩
  | f + 1, acc, ts =>
    match ts with
    | .kAnd :: rest =>
      match parseNotF f rest with
      | .ok (b, r) => andLoopF f (.conj acc b) r
      | .error e => .error e
    | _ => .ok (acc, ts)

def parseOrF : Nat → List Token → Except PErr (Ast × List Token)
  | 0, _ => .error ⟨"query too deeply nested"⟩
  | f + 1, ts =>
    match parseAndF f ts with
    | .ok (a, r) => orLoopF f a r
    | .error e => .error e

def orLoopF : Nat → Ast → List Token → Except PErr (Ast × List Token)
  | 0, _, _ => .error ⟨"query too deeply nested"⟩
  | f + 1, acc, ts =>
    match ts with
    | .kOr :: rest =>
      match parseAndF f rest with
      | .ok (b, r) => orLoopF f (.disj acc b) r
      | .error e => .error e
    | _ => .ok (acc, ts)

end


/-- Compiler-stage errors, propagated synchronously at compile time:
syntax, schema or validation failures (and an internal-compiler marker for
the branch proved unreachable). -/
inductive QErr
  | syn (m : String)
  | schema (m : String)
  | validation (m : String)
  | internal (m : String)
deriving DecidableEq, Repr

/-- Modelled from the spec: the Lexer/Parser contract — accept a query
string, produce an AST or fail with a syntax error; the empty string is a
syntax error; trailing unconsumed input is a syntax error. -/
def parse (q : String) : Except QErr Ast :=
  match lexGo q.data with
  | .error e => .error (.syn e.msg)
  | .ok [] => .error (.syn "empty query")
  | .ok ts =>
    match parseOrF (8 * ts.length + 8) ts with
    | .error e => .error (.syn e.msg)
    | .ok (a, []) => .ok a
    | .ok (_, _ :: _) => .error (.syn "unexpected trailing input")

/-! ## Canonical serialisation -/
/-- Escape a string-literal body for printing: backslash and the double
quote are preceded by a backslash. -/
def escapeStr : List Char → List Char
  | [] => []
  | c :: cs =>
    if c = dquote || c = bslash then bslash :: c :: escapeStr cs
    else c :: escapeStr cs

/-- Canonical spelling of one token.  Numbers print their canonical
mantissa and, when nonzero, an `e`-exponent; strings print double-quoted
with escaping; bracket content prints verbatim. -/
def tokText : Token → List Char
  | .ident s => s.data
  | .kAnd => "AND".data
  | .kOr => "OR".data
  | .kNot => "NOT".data
  | .kContains => "CONTAINS".data
  | .kNotContains => "NOT_CONTAINS".data
  | .kTrue => "true".data
  | .kFalse => "false".data
  | .str s => dquote :: escapeStr s.data ++ [dquote]
  | .num neg m e =>
    (if neg then ['-'] else []) ++ natDigits m ++ (if e = 0 then [] else 'e' :: intDigits e)
  | .opEq => "=".data
  | .opNe => "!=".data
  | .opGt => ">".data
  | .opGe => ">=".data
  | .opLt => "<".data
  | .opLe => "<=".data
  | .lparen => "(".data
  | .rparen => ")".data
  | .dot => ".".data
  | .bracketed s => '[' :: s.data ++ [']']

/-- Render a token list as text, one space after every token. -/
def renderToks : List Token → List Char
  | [] => []
  | t :: ts => tokText t ++ ' ' :: renderToks ts

/-- Tokens of one path segment. -/
def segToks : Segment → List Token
  | .nm s => [.ident s]
  | .idx s i => [.ident s, .bracketed (String.mk (natDigits i))]
  | .key s k => [.ident s, .bracketed k]

/-- Tokens of a field path: segments joined by dots. -/
def pathToks : List Segment → List Token
  | [] => []
  | [sg] => segToks sg
  | sg :: sg2 :: rest => segToks sg ++ .dot :: pathToks (sg2 :: rest)

/-- Token of a comparison operator. -/
def opTok : CompOp → Token
  | .eq => .opEq
  | .ne => .opNe
  | .gt => .opGt
  | .ge => .opGe
  | .lt => .opLt
  | .le => .opLe
  | .contains => .kContains
  | .notContains => .kNotContains

/-- Token of a literal. -/
def litTok : Literal → Token
  | .lstr s => .str s
  | .lnum neg m e => .num neg m e
  | .lbool true => .kTrue
  | .lbool false => .kFalse

/-- Canonical token spelling of an AST: comparisons as path/operator/
literal, Boolean nodes fully parenthesised, `NOT` prefixed. -/
def astToks : Ast → List Token
  | .cmp p op l => pathToks p ++ [opTok op, litTok l]
  | .conj a b => .lparen :: (astToks a ++ .kAnd :: (astToks b ++ [.rparen]))
  | .disj a b => .lparen :: (astToks a ++ .kOr :: (astToks b ++ [.rparen]))
  | .neg a => .kNot :: astToks a

/-- Modelled from the spec: the canonical textual form of a parsed query —
the serialisation through which the parse/serialise round trip is a fixed
point. -/
def serialize (a : Ast) : String :=
  String.mk (renderToks (astToks a))

/-! ## Entity Schema Registry -/
/-- Modelled from the spec: queryable entity kinds — dataset, file, topic,
message path and event. -/
inductive EntityKind
  | dataset
  | file
  | topic
  | messagePath
  | event
deriving DecidableEq, Repr

/-- Value kinds of leaf attributes: string, number, boolean, timestamp,
enum, string collection, and the attempted-numeric-then-string kind of
open-ended metadata values. -/
inductive ValueKind
  | vstr
  | vnum
  | vbool
  | vtimestamp
  | venum
  | vstrList
  | vmeta
deriving DecidableEq, Repr

/-- A field is a scalar attribute, a related entity, a collection of
related entities, or one of the two open-ended namespaces (`metadata`,
`msgpaths`). -/
inductive FieldType
  | scalar (vk : ValueKind)
  | entity (k : EntityKind)
  | collection (k : EntityKind)
  | metadataNs
  | msgpathsNs
deriving DecidableEq, Repr

/-- Modelled from the spec: the read-only, build-time-fixed Entity Schema
Registry — each entity kind's named fields with their value kinds, the
target kinds of relationship fields, the `metadata` open key-value
namespace on every kind, the `msgpaths` keyed namespace on topics, and
the fixed set of precomputed statistics (`min`, `max`, `mean`, `median`,
`true_count`, `false_count`) attached to a message path. -/
def fields : EntityKind → List (String × FieldType)
  | .dataset =>
    [("name", .scalar .vstr), ("description", .scalar .vstr), ("tags", .scalar .vstrList),
     ("created", .scalar .vtimestamp), ("modified", .scalar .vtimestamp),
     ("metadata", .metadataNs)]
  | .file =>
    [("relative_path", .scalar .vstr), ("ingestion_status", .scalar .venum),
     ("created", .scalar .vtimestamp), ("modified", .scalar .vtimestamp),
     ("dataset", .entity .dataset), ("topics", .collection .topic),
     ("metadata", .metadataNs)]
  | .topic =>
    [("name", .scalar .vstr), ("schema_name", .scalar .vstr),
     ("created", .scalar .vtimestamp), ("metadata", .metadataNs),
     ("msgpaths", .msgpathsNs)]
  | .messagePath =>
    [("path", .scalar .vstr), ("min", .scalar .vnum), ("max", .scalar .vnum),
     ("mean", .scalar .vnum), ("median", .scalar .vnum), ("true_count", .scalar .vnum),
     ("false_count", .scalar .vnum), ("metadata", .metadataNs)]
  | .event =>
    [("name", .scalar .vstr), ("start_time", .scalar .vtimestamp),
     ("end_time", .scalar .vtimestamp), ("created", .scalar .vtimestamp),
     ("metadata", .metadataNs)]

/-- Field lookup in the registry. -/
def lookupField (k : EntityKind) (s : String) : Option FieldType :=
  (fields k).lookup s

/-- Resolved path segments: canonical identifiers with explicit indices. -/
inductive RSeg
  | rname (s : String)
  | rindex (s : String) (i : Nat)
  | rkey (s : String) (k : String)
deriving DecidableEq, Repr

/-- Resolution errors: schema errors (unknown field, indexing a
non-collection, unsupported keyed lookup, navigation violating the path
invariant) and validation errors (type/operator mismatch). -/
inductive RErr
  | schema (m : String)
  | validation (m : String)
deriving DecidableEq, Repr

/-- Modelled from the spec: `resolve(entity_kind, path_segments)` — walk a
Field Path against the Schema Registry.  Every non-terminal segment must
resolve to a collection or sub-entity; only the terminal segment may
resolve to a scalar attribute.  Unindexed access to a collection is
treated as index 0.  Only `metadata` and `msgpaths` support open-ended
keys; a `msgpaths` key continues into the message-path statistics. -/
def resolveSegs (k : EntityKind) : List Segment → Except RErr (List RSeg × ValueKind)
  | [] => .error (.schema "empty field path")
  | .nm s :: rest =>
    match lookupField k s with
    | none => .error (.schema ("unknown field: " ++ s))
    | some (.scalar vk) =>
      match rest with
      | [] => .ok ([.rname s], vk)
      | _ :: _ => .error (.schema ("cannot navigate into scalar field: " ++ s))
    | some (.entity k2) =>
      match rest with
      | [] => .error (.schema ("field is not a scalar attribute: " ++ s))
      | _ :: _ =>
        match resolveSegs k2 rest with
        | .ok (segs, vk) => .ok (.rname s :: segs, vk)
        | .error e => .error e
    | some (.collection k2) =>
      match rest with
      | [] => .error (.schema ("field is not a scalar attribute: " ++ s))
      | _ :: _ =>
        match resolveSegs k2 rest with
        | .ok (segs, vk) => .ok (.rindex s 0 :: segs, vk)
        | .error e => .error e
    | some .metadataNs =>
      match rest with
      | [.nm key] => .ok ([.rname s, .rname key], .vmeta)
      | _ => .error (.schema ("metadata lookup must name a single key: " ++ s))
    | some .msgpathsNs => .error (.schema ("keyed access required for field: " ++ s))
  | .idx s i :: rest =>
    match lookupField k s with
    | none => .error (.schema ("unknown field: " ++ s))
    | some (.collection k2) =>
      match rest with
      | [] => .error (.schema ("field is not a scalar attribute: " ++ s))
      | _ :: _ =>
        match resolveSegs k2 rest with
        | .ok (segs, vk) => .ok (.rindex s i :: segs, vk)
        | .error e => .error e
    | some _ => .error (.schema ("cannot index non-collection field: " ++ s))
  | .key s kk :: rest =>
    match lookupField k s with
    | none => .error (.schema ("unknown field: " ++ s))
    | some .msgpathsNs =>
      match rest with
      | [] => .error (.schema ("field is not a scalar attribute: " ++ s))
      | _ :: _ =>
        match resolveSegs .messagePath rest with
        | .ok (segs, vk) => .ok (.rkey s kk :: segs, vk)
        | .error e => .error e
    | some .metadataNs =>
      match rest with
      | [] => .ok ([.rkey s kk], .vmeta)
      | _ :: _ => .error (.schema ("cannot navigate into metadata value: " ++ s))
    | some _ => .error (.schema ("field does not support keyed access: " ++ s))

/-! ## Timestamps -/
/-- Days before the start of each month in a non-leap year. -/
def monthOffset : Nat → Nat
  | 1 => 0
  | 2 => 31
  | 3 => 59
  | 4 => 90
  | 5 => 120
  | 6 => 151
  | 7 => 181
  | 8 => 212
  | 9 => 243
  | 10 => 273
  | 11 => 304
  | 12 => 334
  | _ => 0

/-- Gregorian leap-year rule. -/
def isLeapYear (y : Nat) : Bool :=
  (y % 4 = 0 && y % 100 ≠ 0) || y % 400 = 0

/-- Length of a month in a given year. -/
def monthLen (y m : Nat) : Nat :=
  if m = 2 then (if isLeapYear y then 29 else 28)
  else if m = 4 || m = 6 || m = 9 || m = 11 then 30
  else 31

/-- Leap years strictly before year `y`. -/
def leapsBefore (y : Nat) : Nat :=
  (y - 1) / 4 - (y - 1) / 100 + (y - 1) / 400

/-- Days from 1970-01-01 to the given calendar date. -/
def epochDays (y m d : Nat) : Nat :=
  365 * (y - 1970) + (leapsBefore y - leapsBefore 1970)
    + monthOffset m + (if isLeapYear y && decide (2 < m) then 1 else 0) + (d - 1)

/-- Parse a calendar date `YYYY-MM-DD` prefix, validating ranges (years
from 1970 on).  Returns year, month, day and the remaining input. -/
def parseIsoDate : List Char → Option (Nat × Nat × Nat × List Char)
  | y1 :: y2 :: y3 :: y4 :: a :: m1 :: m2 :: b :: d1 :: d2 :: rest =>
    if ([y1, y2, y3, y4, m1, m2, d1, d2].all isDigitChar) && a.toNat = 45 && b.toNat = 45 then
      let y := digitsToNat [y1, y2, y3, y4]
      let m := digitsToNat [m1, m2]
      let d := digitsToNat [d1, d2]
      if 1970 ≤ y && 1 ≤ m && m ≤ 12 && 1 ≤ d && d ≤ monthLen y m then
        some (y, m, d, rest)
      else none
    else none
  | _ => none

/-- Parse an optional ISO-8601 time-of-day suffix `THH:MM:SS`, with an
optional trailing `Z`; absence means midnight.  Returns seconds in day. -/
def parseIsoTime : List Char → Option Nat
  | [] => some 0
  | t :: h1 :: h2 :: a :: m1 :: m2 :: b :: s1 :: s2 :: rest =>
    if t.toNat = 84 && a.toNat = 58 && b.toNat = 58
        && ([h1, h2, m1, m2, s1, s2].all isDigitChar)
        && (rest.isEmpty || rest = ['Z']) then
      let h := digitsToNat [h1, h2]
      let mi := digitsToNat [m1, m2]
      let s := digitsToNat [s1, s2]
      if h ≤ 23 && mi ≤ 59 && s ≤ 59 then some (3600 * h + 60 * mi + s) else none
    else none
  | _ => none

/-- Modelled from the spec: a quoted ISO-8601 string literal compared
against a timestamp field is parsed as a calendar timestamp, normalised to
nanoseconds since epoch. -/
def isoToNs (s : String) : Option Int :=
  match parseIsoDate s.data with
  | some (y, m, d, rest) =>
    match parseIsoTime rest with
    | some secs => some (((epochDays y m d * 86400 + secs : Nat) : Int) * 1000000000)
    | none => none
  | none => none

/-- Nanoseconds-since-epoch reading of an unquoted numeric literal against
a timestamp field (fractional nanoseconds are truncated). -/
def numToNs (neg : Bool) (m : Nat) (e : Int) : Int :=
  let v : Int := if neg then -(m : Int) else (m : Int)
  if 0 ≤ e then v * (10 : Int) ^ e.toNat else v / (10 : Int) ^ (-e).toNat

/-! ## Semantic resolution -/
/-- Modelled from the spec: operator/type compatibility — `CONTAINS` and
`NOT_CONTAINS` only on string- or collection-valued attributes, ordering
operators only on numeric or timestamp-valued attributes, equality on
everything; open-ended metadata values admit every operator. -/
def opCompatible : CompOp → ValueKind → Bool
  | .eq, _ => true
  | .ne, _ => true
  | .gt, vk => vk == .vnum || vk == .vtimestamp || vk == .vmeta
  | .ge, vk => vk == .vnum || vk == .vtimestamp || vk == .vmeta
  | .lt, vk => vk == .vnum || vk == .vtimestamp || vk == .vmeta
  | .le, vk => vk == .vnum || vk == .vtimestamp || vk == .vmeta
  | .contains, vk => vk == .vstr || vk == .vstrList || vk == .vmeta
  | .notContains, vk => vk == .vstr || vk == .vstrList || vk == .vmeta

/-- Wire-normalised literal: canonical string/number/boolean encodings and
timestamps as nanoseconds since epoch. -/
inductive WireLit
  | wstr (s : String)
  | wnum (neg : Bool) (m : Nat) (e : Int)
  | wbool (b : Bool)
  | wts (ns : Int)
deriving DecidableEq, Repr

/-- Modelled from the spec: literal-type coercion — the literal type must
be coercible to the resolved field's value kind; numeric literals against
timestamp fields are nanoseconds since epoch, quoted ISO-8601 strings are
calendar timestamps; both forms are supported. -/
def coerceLit (vk : ValueKind) : Literal → Except RErr WireLit
  | .lstr s =>
    match vk with
    | .vstr => .ok (.wstr s)
    | .vstrList => .ok (.wstr s)
    | .venum => .ok (.wstr s)
    | .vmeta => .ok (.wstr s)
    | .vtimestamp =>
      match isoToNs s with
      | some ns => .ok (.wts ns)
      | none => .error (.validation "string literal is not a valid ISO-8601 timestamp")
    | _ => .error (.validation "type mismatch: string literal")
  | .lnum neg m e =>
    match vk with
    | .vnum => .ok (.wnum neg m e)
    | .vmeta => .ok (.wnum neg m e)
    | .vtimestamp => .ok (.wts (numToNs neg m e))
    | _ => .error (.validation "type mismatch: numeric literal")
  | .lbool b =>
    match vk with
    | .vbool => .ok (.wbool b)
    | .vmeta => .ok (.wbool b)
    | _ => .error (.validation "type mismatch: boolean literal")

/-- A resolved Field Path: canonical segments and the inferred value kind
of the terminal attribute. -/
structure ResolvedPath where
  segs : List RSeg
  vk : ValueKind
deriving DecidableEq, Repr

/-- Modelled from the spec: the annotated AST — same shape as the AST,
each Comparison Node now carrying a resolved path, the inferred value
kind, and the literal normalised to its wire encoding. -/
inductive Ann
  | cmp (rp : ResolvedPath) (op : CompOp) (w : WireLit)
  | conj (a b : Ann)
  | disj (a b : Ann)
  | neg (a : Ann)
deriving DecidableEq, Repr

/-- Modelled from the spec: the Semantic Resolver — a single depth-first
traversal resolving every Comparison Node's Field Path via the Schema
Registry and checking operator/type compatibility, returning an annotated
AST or failing with the first error found. -/
def resolveAst (k : EntityKind) : Ast → Except RErr Ann
  | .cmp path op lit =>
    match resolveSegs k path with
    | .error e => .error e
    | .ok (segs, vk) =>
      if opCompatible op vk then
        match coerceLit vk lit with
        | .ok w => .ok (.cmp ⟨segs, vk⟩ op w)
        | .error e => .error e
      else .error (.validation "operator not allowed for field type")
  | .conj a b =>
    match resolveAst k a with
    | .error e => .error e
    | .ok a2 =>
      match resolveAst k b with
      | .error e => .error e
      | .ok b2 => .ok (.conj a2 b2)
  | .disj a b =>
    match resolveAst k a with
    | .error e => .error e
    | .ok a2 =>
      match resolveAst k b with
      | .error e => .error e
      | .ok b2 => .ok (.disj a2 b2)
  | .neg a =>
    match resolveAst k a with
    | .error e => .error e
    | .ok a2 => .ok (.neg a2)

/-- All comparison leaves of an AST, in traversal order. -/
def comps : Ast → List (List Segment × CompOp × Literal)
  | .cmp p op l => [(p, op, l)]
  | .conj a b => comps a ++ comps b
  | .disj a b => comps a ++ comps b
  | .neg a => comps a

/-! ## Filter compiler -/
/-- Modelled from the spec: the Wire Filter — same tree shape as the AST,
field paths replaced by resolved canonical identifiers, literals
normalised, operator names drawn from a fixed wire vocabulary; `all` is
the empty/match-all filter produced by the wildcard query. -/
inductive WireFilter
  | all
  | cmp (fieldId : String) (op : String) (w : WireLit)
  | conj (a b : WireFilter)
  | disj (a b : WireFilter)
  | neg (a : WireFilter)
deriving DecidableEq, Repr

/-- Fixed wire vocabulary for operators. -/
def wireOpStr : CompOp → String
  | .eq => "eq"
  | .ne => "ne"
  | .gt => "gt"
  | .ge => "ge"
  | .lt => "lt"
  | .le => "le"
  | .contains => "contains"
  | .notContains => "not_contains"

/-- Canonical identifier text of one resolved segment. -/
def rsegText : RSeg → String
  | .rname s => s
  | .rindex s i => s ++ "[" ++ String.mk (natDigits i) ++ "]"
  | .rkey s k => s ++ "[" ++ k ++ "]"

/-- Canonical dotted identifier of a resolved path, with explicit
indices. -/
def renderRPath : List RSeg → String
  | [] => ""
  | [sg] => rsegText sg
  | sg :: sg2 :: rest => rsegText sg ++ "." ++ renderRPath (sg2 :: rest)

/-- Wire operator encoding, defined exactly for operator/value-kind pairs
the resolver admits. -/
def wireOpName (op : CompOp) (vk : ValueKind) : Option String :=
  if opCompatible op vk then some (wireOpStr op) else none

/-- Modelled from the spec: the Filter Compiler — lower an annotated AST
to the Wire Filter; the error branch covers an operator with no wire
encoding at the annotated type, which semantic resolution rules out. -/
def lowerAnn : Ann → Except QErr WireFilter
  | .cmp rp op w =>
    match wireOpName op rp.vk with
    | some o => .ok (.cmp (renderRPath rp.segs) o w)
    | none => .error (.internal "no wire encoding for operator at this type")
  | .conj a b =>
    match lowerAnn a with
    | .error e => .error e
    | .ok a2 =>
      match lowerAnn b with
      | .error e => .error e
      | .ok b2 => .ok (.conj a2 b2)
  | .disj a b =>
    match lowerAnn a with
    | .error e => .error e
    | .ok a2 =>
      match lowerAnn b with
      | .error e => .error e
      | .ok b2 => .ok (.disj a2 b2)
  | .neg a =>
    match lowerAnn a with
    | .error e => .error e
    | .ok a2 => .ok (.neg a2)

/-- Modelled from the spec: the full compile pipeline — the reserved
wildcard query `"*"` bypasses lexing, parsing and resolution and produces
the empty/match-all Wire Filter; any other query is lexed, parsed,
resolved and lowered, with all compiler-stage errors raised synchronously
and no partial filter ever produced. -/
def compileQuery (k : EntityKind) (q : String) : Except QErr WireFilter :=
  if q = "*" then .ok .all
  else
    match parse q with
    | .error e => .error e
    | .ok ast =>
      match resolveAst k ast with
      | .error (.schema m) => .error (.schema m)
      | .error (.validation m) => .error (.validation m)
      | .ok ann => lowerAnn ann

/-! ## Pagination -/
/-- Opaque transport-level failure from the external fetch collaborator,
not interpreted by this core. -/
structure TransportError where
  msg : String
deriving DecidableEq, Repr

/-- Modelled from the spec: one raw page from the backend — records in
backend order, an opaque continuation token (`none` on the final page) and
an optional total-count hint. -/
structure Page (α : Type) where
  records : List α
  nextToken : Option String
  totalCount : Option Nat
deriving Repr

/-- Modelled from the spec: the Pagination Cursor state — the remaining
backend fetch outcomes (the external collaborator's responses in call
order), the most recently fetched page buffer with its read position
(represented by the unread suffix), the continuation token (`none` when
exhausted or not yet started), whether a fetch has happened yet, and
whether a transport failure has put the cursor in its terminal failed
state. -/
structure Cursor (α : Type) where
  pending : List (Except TransportError (Page α))
  buffer : List α
  token : Option String
  started : Bool
  failed : Bool
deriving Repr

/-- A fresh cursor over a backend, before the first fetch. -/
def Cursor.fresh {α : Type} (backend : List (Except TransportError (Page α))) : Cursor α :=
  ⟨backend, [], none, false, false⟩

/-- Outcome of one pull on the lazy result sequence: the next record, the
end of the sequence, or a surfaced failure. -/
inductive PullOut (α : Type)
  | yield (a : α)
  | done
  | failure
deriving DecidableEq, Repr

/-- Modelled from the spec: one pull on the cursor — records are yielded
from the page buffer in backend order, exactly once each; when the buffer
empties the sequence terminates if the last page carried no continuation
token, otherwise the next page is fetched; a transport failure surfaces at
the pull where the next record would have been produced and leaves the
cursor in a terminal failed state that is never retried. -/
def pullF {α : Type} : Nat → Cursor α → PullOut α × Cursor α
  | 0, c => (.failure, c)
  | fuel + 1, c =>
    if c.failed then (.failure, c)
    else
      match c.buffer with
      | a :: rest => (.yield a, ⟨c.pending, rest, c.token, c.started, c.failed⟩)
      | [] =>
        if c.started && c.token.isNone then (.done, c)
        else
          match c.pending with
          | [] => (.failure, ⟨[], [], c.token, true, true⟩)
          | .error _ :: rest => (.failure, ⟨rest, [], c.token, true, true⟩)
          | .ok p :: rest => pullF fuel ⟨rest, p.records, p.nextToken, true, false⟩

/-- One pull, with fuel matching the number of pending backend responses
(each fetch consumes exactly one pending response). -/
def pull {α : Type} (c : Cursor α) : PullOut α × Cursor α :=
  pullF (c.pending.length + 1) c

/-- Trace of `n` successive pulls. -/
def runT {α : Type} : Nat → Cursor α → List (PullOut α)
  | 0, _ => []
  | n + 1, c => (pull c).1 :: runT n (pull c).2

/-- A well-formed backend page chain: at least one page, every page before
the last carries a continuation token, the last does not. -/
def goodChain {α : Type} : List (Page α) → Bool
  | [] => false
  | [p] => p.nextToken.isNone
  | p :: p2 :: rest => p.nextToken.isSome && goodChain (p2 :: rest)

/-- All records of a page list, in page order. -/
def joinRecs {α : Type} (pages : List (Page α)) : List α :=
  (pages.map Page.records).flatten

/-! ## Decidable equality for results -/
instance exceptDecEq {ε α : Type} [DecidableEq ε] [DecidableEq α] : DecidableEq (Except ε α)
  | .ok a, .ok b =>
    if h : a = b then .isTrue (by rw [h]) else .isFalse (by simp [h])
  | .ok _, .error _ => .isFalse (by simp)
  | .error _, .ok _ => .isFalse (by simp)
  | .error a, .error b =>
    if h : a = b then .isTrue (by rw [h]) else .isFalse (by simp [h])

/-- Navigation of a prefix of a Field Path from one entity kind to
another, through relationship fields, collections and `msgpaths` keys, as
the resolver walks them. -/
inductive Navigates : EntityKind → List Segment → EntityKind → Prop
  | nil (k : EntityKind) : Navigates k [] k
  | entity {k k2 k3 : EntityKind} {s : String} {segs : List Segment} :
      lookupField k s = some (.entity k2) → Navigates k2 segs k3 →
      Navigates k (.nm s :: segs) k3
  | collName {k k2 k3 : EntityKind} {s : String} {segs : List Segment} :
      lookupField k s = some (.collection k2) → Navigates k2 segs k3 →
      Navigates k (.nm s :: segs) k3
  | collIdx {k k2 k3 : EntityKind} {s : String} {i : Nat} {segs : List Segment} :
      lookupField k s = some (.collection k2) → Navigates k2 segs k3 →
      Navigates k (.idx s i :: segs) k3
  | msgKey {k k3 : EntityKind} {s key : String} {segs : List Segment} :
      lookupField k s = some .msgpathsNs → Navigates .messagePath segs k3 →
      Navigates k (.key s key :: segs) k3

/-- Spellings reserved as keywords or boolean literals. -/
def keywordChars (l : List Char) : Bool :=
  l = "AND".data || l = "OR".data || l = "NOT".data || l = "CONTAINS".data ||
  l = "NOT_CONTAINS".data || l = "true".data || l = "false".data

/-- Identifier shape: a start character followed by identifier
characters. -/
def identShape : List Char → Bool
  | [] => false
  | c :: cs => isIdentStart c && cs.all isIdentChar

/-- Well-formed token, exactly as the lexer produces them: identifiers are
identifier-shaped non-keywords, numbers are canonical (no mantissa factor
of ten, no negative zero), bracket content is nonempty and free of closing
brackets. -/
def TokWF : Token → Bool
  | .ident s => identShape s.data && !keywordChars s.data
  | .num neg m e => if m = 0 then !neg else decide (m % 10 ≠ 0)
  | .bracketed s => !s.data.isEmpty && decide (']' ∉ s.data)
  | _ => true

/-! ## Parser well-formedness and the print/reparse round trip -/
/-- First token is a dot. -/
def headDot : List Token → Bool
  | .dot :: _ => true
  | _ => false

/-- First token is a bracket access. -/
def headBr : List Token → Bool
  | .bracketed _ :: _ => true
  | _ => false

/-- Tokens of the dot-prefixed tail segments of a path. -/
def dotToks : List Segment → List Token
  | [] => []
  | sg :: rest => .dot :: (segToks sg ++ dotToks rest)

/-- Well-formed path segment, exactly as the parser produces them from
well-formed tokens: names are identifier-shaped non-keywords, an explicit
index is nonzero (index zero collapses to the unindexed form), and a key
is nonempty, free of closing brackets and not all digits (else it would
have parsed as an index). -/
def segWF : Segment → Bool
  | .nm s => identShape s.data && !keywordChars s.data
  | .idx s i => (identShape s.data && !keywordChars s.data) && decide (i ≠ 0)
  | .key s k => (identShape s.data && !keywordChars s.data) &&
      (!k.data.isEmpty && decide (']' ∉ k.data) && !k.data.all isDigitChar)

/-- Well-formed literal: numbers are canonical, as the lexer emits them. -/
def litWF : Literal → Bool
  | .lnum neg m e => if m = 0 then !neg else decide (m % 10 ≠ 0)
  | _ => true

/-- Well-formed AST, as the parser produces from well-formed tokens:
comparison paths are nonempty with well-formed segments and canonical
literals. -/
def astWF : Ast → Bool
  | .cmp p _ l => !p.isEmpty && p.all segWF && litWF l
  | .conj a b => astWF a && astWF b
  | .disj a b => astWF a && astWF b
  | .neg a => astWF a

/-- Node count of an AST, a fuel bound for reparsing its printed form. -/
def astSize : Ast → Nat
  | .cmp _ _ _ => 1
  | .conj a b => astSize a + astSize b + 1
  | .disj a b => astSize a + astSize b + 1
  | .neg a => astSize a + 1

/-- Concrete parsed AST of the round-trip example query, exercising
conjunction, disjunction, negation, indexed and keyed path segments and
string and scientific-number literals. -/
def c3wAst : Ast :=
  .conj
    (.cmp [.nm "dataset", .nm "name"] .eq (.lstr "x"))
    (.disj
      (.cmp [.idx "files" 2, .nm "size"] .gt (.lnum false 1 1))
      (.neg (.cmp [.nm "topics", .key "msgpaths" "foo/bar.z", .nm "max"]
        .contains (.lstr "y"))))

theorem digitVal_digitChar {d : Nat} (h : d < 10) : digitVal (digitChar d) = d := by
  interval_cases d <;> rfl

theorem isDigitChar_digitChar {d : Nat} (h : d < 10) : isDigitChar (digitChar d) = true := by
  interval_cases d <;> rfl

theorem digitsToNat_append (l : List Char) (d : Char) :
    digitsToNat (l ++ [d]) = 10 * digitsToNat l + digitVal d := by
  simp [digitsToNat, List.foldl_append]

theorem digitsToNat_natDigitsF :
    ∀ fuel n, n < fuel → digitsToNat (natDigitsF fuel n) = n := by
  intro fuel
  induction fuel with
  | zero => omega
  | succ fuel ih =>
    intro n hn
    by_cases h : n < 10
    · simp [natDigitsF, h, digitsToNat, digitVal_digitChar h]
    · rw [natDigitsF]
      simp only [h, if_false]
      rw [digitsToNat_append, ih (n / 10) (by omega),
        digitVal_digitChar (Nat.mod_lt _ (by omega))]
      omega

theorem digitsToNat_natDigits (n : Nat) : digitsToNat (natDigits n) = n :=
  digitsToNat_natDigitsF (n + 1) n (by omega)

theorem natDigits_ne_nil (n : Nat) : natDigits n ≠ [] := by
  rw [natDigits, natDigitsF]
  by_cases h : n < 10 <;> simp [h]

theorem natDigitsF_all_digits :
    ∀ fuel n, (natDigitsF fuel n).all isDigitChar = true := by
  intro fuel
  induction fuel with
  | zero => intro n; rfl
  | succ fuel ih =>
    intro n
    by_cases h : n < 10
    · simp [natDigitsF, h, isDigitChar_digitChar]
    · rw [natDigitsF]
      simp only [h, if_false, List.all_append, Bool.and_eq_true]
      exact ⟨ih (n / 10),
        by simp [isDigitChar_digitChar (Nat.mod_lt _ (show 0 < 10 by omega))]⟩

theorem natDigits_all_digits (n : Nat) : (natDigits n).all isDigitChar = true :=
  natDigitsF_all_digits (n + 1) n

theorem scanStr_length {q : Char} :
    ∀ l, ∀ s r : List Char, scanStr q l = some (s, r) → r.length < l.length := by
  intro l
  induction l using scanStr.induct q with
  | case1 => intro s r h; simp [scanStr] at h
  | case2 ds => intro s r h; unfold scanStr at h; simp at h; simp [← h.2]
  | case3 hq => intro s r h; unfold scanStr at h; simp [hq] at h
  | case4 d ds s' r' hsc hq ih =>
    intro s r h
    unfold scanStr at h
    simp [hq, hsc] at h
    have := ih s' r' hsc
    simp [← h.2]
    omega
  | case5 d ds hsc hq ih =>
    intro s r h
    unfold scanStr at h
    simp [hq, hsc] at h
  | case6 d ds hq hb s' r' hsc ih =>
    intro s r h
    unfold scanStr at h
    simp [hq, hb, hsc] at h
    have := ih s' r' hsc
    simp [← h.2]
    omega
  | case7 d ds hq hb hsc ih =>
    intro s r h
    unfold scanStr at h
    simp [hq, hb, hsc] at h

theorem scanBr_length :
    ∀ l, ∀ s r : List Char, scanBr l = some (s, r) → r.length < l.length := by
  intro l
  induction l using scanBr.induct with
  | case1 => intro s r h; simp [scanBr] at h
  | case2 ds => intro s r h; unfold scanBr at h; simp at h; simp [← h.2]
  | case3 c ds hc s' r' hsc ih =>
    intro s r h
    unfold scanBr at h
    simp [hc, hsc] at h
    have := ih s' r' hsc
    simp [← h.2]
    omega
  | case4 c ds hc hsc ih =>
    intro s r h
    unfold scanBr at h
    simp [hc, hsc] at h

theorem length_dropWhile_le (p : Char → Bool) (l : List Char) :
    (l.dropWhile p).length ≤ l.length :=
  List.Sublist.length_le (List.dropWhile_sublist _)

theorem takeFrac_length (l : List Char) : (takeFrac l).2.length ≤ l.length := by
  match l with
  | [] => simp [takeFrac]
  | [c] => simp [takeFrac]
  | c :: d :: rest =>
    have hd := length_dropWhile_le isDigitChar rest
    by_cases h : (c.toNat = 46 && isDigitChar d) = true
    · have h12 : c.toNat = 46 ∧ isDigitChar d = true := by simpa using h
      simp [takeFrac, h12.1, h12.2, List.dropWhile_cons]
      omega
    · simp [takeFrac, h]

theorem expDigits_length :
    ∀ l i r, expDigits l = some (i, r) → r.length ≤ l.length := by
  intro l i r h
  match l with
  | [] => simp [expDigits] at h
  | c :: rest =>
    have hd := length_dropWhile_le isDigitChar rest
    have hd2 := length_dropWhile_le isDigitChar (c :: rest)
    unfold expDigits at h
    repeat' split at h
    all_goals simp_all
    all_goals omega

theorem takeExp_length (l : List Char) : (takeExp l).2.length ≤ l.length := by
  match l with
  | [] => simp [takeExp]
  | c :: rest =>
    by_cases h : (c.toNat = 101 || c.toNat = 69) = true
    · match hx : expDigits rest with
      | some (i, r) =>
        have := expDigits_length rest i r hx
        simp [takeExp, h, hx]
        omega
      | none => simp [takeExp, h, hx]
    · simp [takeExp, h]

theorem numScan_length {c : Char} (cs : List Char) (hc : isDigitChar c = true) :
    (numScan (c :: cs)).2.length < (c :: cs).length := by
  unfold numScan
  simp only [List.dropWhile_cons, hc, if_true]
  have h1 := length_dropWhile_le isDigitChar cs
  have h2 := takeFrac_length (cs.dropWhile isDigitChar)
  have h3 := takeExp_length (takeFrac (cs.dropWhile isDigitChar)).2
  simp
  omega

/-! ## Cursor lemmas -/
theorem pull_failed {α : Type} (c : Cursor α) (h : c.failed = true) :
    pull c = (.failure, c) := by
  obtain ⟨pend, buf, tk, st, fl⟩ := c
  simp at h
  simp [pull, pullF, h]

theorem runT_failed {α : Type} (n : Nat) (c : Cursor α) (h : c.failed = true) :
    runT n c = List.replicate n .failure := by
  induction n with
  | zero => rfl
  | succ n ih =>
    rw [runT, pull_failed c h]
    simp [List.replicate_succ, ih]

theorem pull_yield {α : Type} (pend : List (Except TransportError (Page α)))
    (a : α) (rest : List α) (tk : Option String) (st : Bool) :
    pull (⟨pend, a :: rest, tk, st, false⟩ : Cursor α)
      = (.yield a, ⟨pend, rest, tk, st, false⟩) := by
  simp [pull, pullF]

theorem runT_buffer {α : Type} (b : List α) (n : Nat)
    (pend : List (Except TransportError (Page α))) (tk : Option String) (st : Bool) :
    runT (b.length + n) (⟨pend, b, tk, st, false⟩ : Cursor α)
      = b.map PullOut.yield ++ runT n (⟨pend, [], tk, st, false⟩ : Cursor α) := by
  induction b with
  | nil => simp
  | cons a rest ih =>
    have : rest.length + n + 1 = (a :: rest).length + n := by simp; omega
    rw [← this, runT, pull_yield]
    simp [ih]

theorem pull_exhausted {α : Type} (pend : List (Except TransportError (Page α)))
    (tk : Option String) (h : tk.isNone = true) :
    pull (⟨pend, [], tk, true, false⟩ : Cursor α) = (.done, ⟨pend, [], tk, true, false⟩) := by
  simp [pull, pullF, h]

theorem runT_exhausted {α : Type} (n : Nat) (pend : List (Except TransportError (Page α)))
    (tk : Option String) (h : tk.isNone = true) :
    runT n (⟨pend, [], tk, true, false⟩ : Cursor α) = List.replicate n .done := by
  induction n with
  | zero => rfl
  | succ n ih =>
    rw [runT, pull_exhausted _ _ h]
    simp [List.replicate_succ, ih]

theorem pull_fetch {α : Type} (p : Page α) (rest : List (Except TransportError (Page α)))
    (tk : Option String) (st : Bool) (h : st = false ∨ tk.isSome = true) :
    pull (⟨.ok p :: rest, [], tk, st, false⟩ : Cursor α)
      = pull (⟨rest, p.records, p.nextToken, true, false⟩ : Cursor α) := by
  have hc : (st && tk.isNone) = false := by
    rcases h with h | h
    · simp [h]
    · simp [Option.isSome_iff_exists] at h
      obtain ⟨x, rfl⟩ := h
      simp
  simp [pull, pullF, hc]

theorem runT_fetch {α : Type} (k : Nat) (hk : 0 < k) (p : Page α)
    (pend : List (Except TransportError (Page α))) (tk : Option String) (st : Bool)
    (h : st = false ∨ tk.isSome = true) :
    runT k (⟨.ok p :: pend, [], tk, st, false⟩ : Cursor α)
      = runT k (⟨pend, p.records, p.nextToken, true, false⟩ : Cursor α) := by
  match k with
  | 0 => omega
  | k + 1 => rw [runT, runT, pull_fetch p pend tk st h]

theorem chain_trace {α : Type} :
    ∀ (pages : List (Page α)) (tk : Option String) (st : Bool),
    goodChain pages = true → (st = false ∨ tk.isSome = true) → ∀ n,
    runT ((joinRecs pages).length + 1 + n) (⟨pages.map .ok, [], tk, st, false⟩ : Cursor α)
      = (joinRecs pages).map PullOut.yield ++ List.replicate (n + 1) PullOut.done := by
  intro pages
  induction pages with
  | nil => intro tk st h; simp [goodChain] at h
  | cons p rest ih =>
    intro tk st hg hok n
    have hjoin : joinRecs (p :: rest) = p.records ++ joinRecs rest := by
      simp [joinRecs]
    have hfuel : (joinRecs (p :: rest)).length + 1 + n
        = p.records.length + ((joinRecs rest).length + 1 + n) := by
      simp [hjoin]
      omega
    rw [List.map_cons, runT_fetch _ (by omega) p (rest.map .ok) tk st hok,
      hfuel, runT_buffer]
    match rest with
    | [] =>
      have hnone : p.nextToken.isNone = true := by
        simpa [goodChain] using hg
      rw [runT_exhausted _ _ _ hnone]
      simp [hjoin, joinRecs]
      omega
    | q :: qs =>
      have hg2 : goodChain (q :: qs) = true := by
        simp [goodChain] at hg
        exact hg.2
      have hsome : p.nextToken.isSome = true := by
        simp [goodChain] at hg
        exact hg.1
      rw [ih p.nextToken true hg2 (Or.inr hsome) n]
      simp [hjoin]

/-! ## Resolver lemmas -/
theorem resolveAst_cmp_path_error {k : EntityKind} {p : List Segment} {op : CompOp}
    {l : Literal} {e : RErr} (h : resolveSegs k p = .error e) :
    resolveAst k (.cmp p op l) = .error e := by
  unfold resolveAst
  rw [h]

theorem resolveAst_cmp_incompatible {k : EntityKind} {p : List Segment} {op : CompOp}
    {l : Literal} {segs : List RSeg} {vk : ValueKind}
    (h : resolveSegs k p = .ok (segs, vk)) (hop : opCompatible op vk = false) :
    resolveAst k (.cmp p op l) = .error (.validation "operator not allowed for field type") := by
  unfold resolveAst
  rw [h]
  simp [hop]

theorem resolve_ok_paths {k : EntityKind} :
    ∀ (t : Ast) (ann : Ann), resolveAst k t = .ok ann →
      ∀ c ∈ comps t, ∃ r, resolveSegs k c.1 = .ok r := by
  intro t
  induction t with
  | cmp p op l =>
    intro ann h c hc
    simp [comps] at hc
    subst hc
    unfold resolveAst at h
    match hr : resolveSegs k p with
    | .error e => rw [hr] at h; simp at h
    | .ok r => exact ⟨r, rfl⟩
  | conj a b iha ihb =>
    intro ann h c hc
    unfold resolveAst at h
    match ha : resolveAst k a with
    | .error e => rw [ha] at h; simp at h
    | .ok a2 =>
      rw [ha] at h
      match hb : resolveAst k b with
      | .error e => rw [hb] at h; simp at h
      | .ok b2 =>
        simp [comps] at hc
        rcases hc with hc | hc
        · exact iha a2 ha c hc
        · exact ihb b2 hb c hc
  | disj a b iha ihb =>
    intro ann h c hc
    unfold resolveAst at h
    match ha : resolveAst k a with
    | .error e => rw [ha] at h; simp at h
    | .ok a2 =>
      rw [ha] at h
      match hb : resolveAst k b with
      | .error e => rw [hb] at h; simp at h
      | .ok b2 =>
        simp [comps] at hc
        rcases hc with hc | hc
        · exact iha a2 ha c hc
        · exact ihb b2 hb c hc
  | neg a iha =>
    intro ann h c hc
    unfold resolveAst at h
    match ha : resolveAst k a with
    | .error e => rw [ha] at h; simp at h
    | .ok a2 =>
      simp [comps] at hc
      exact iha a2 ha c hc

theorem navigates_unknown :
    ∀ {k k2 : EntityKind} {pre : List Segment}, Navigates k pre k2 →
      ∀ (s : String), lookupField k2 s = none → ∀ (suf : List Segment),
      resolveSegs k (pre ++ .nm s :: suf) = .error (.schema ("unknown field: " ++ s)) := by
  intro k k2 pre hnav
  induction hnav with
  | nil k =>
    intro s hs suf
    simp [resolveSegs, hs]
  | entity hlk hnav2 ih =>
    intro s hs suf
    rename_i k k' k3 s0 segs
    obtain ⟨hd, tl, heq⟩ : ∃ hd tl, segs ++ Segment.nm s :: suf = hd :: tl := by
      cases segs <;> simp
    have hrec := ih s hs suf
    rw [heq] at hrec
    simp only [List.cons_append, resolveSegs, hlk, List.append_eq]
    rw [heq]
    simp [hrec]
  | collName hlk hnav2 ih =>
    intro s hs suf
    rename_i k k' k3 s0 segs
    obtain ⟨hd, tl, heq⟩ : ∃ hd tl, segs ++ Segment.nm s :: suf = hd :: tl := by
      cases segs <;> simp
    have hrec := ih s hs suf
    rw [heq] at hrec
    simp only [List.cons_append, resolveSegs, hlk, List.append_eq]
    rw [heq]
    simp [hrec]
  | collIdx hlk hnav2 ih =>
    intro s hs suf
    rename_i k k' k3 s0 i segs
    obtain ⟨hd, tl, heq⟩ : ∃ hd tl, segs ++ Segment.nm s :: suf = hd :: tl := by
      cases segs <;> simp
    have hrec := ih s hs suf
    rw [heq] at hrec
    simp only [List.cons_append, resolveSegs, hlk, List.append_eq]
    rw [heq]
    simp [hrec]
  | msgKey hlk hnav2 ih =>
    intro s hs suf
    rename_i k k3 s0 key segs
    obtain ⟨hd, tl, heq⟩ : ∃ hd tl, segs ++ Segment.nm s :: suf = hd :: tl := by
      cases segs <;> simp
    have hrec := ih s hs suf
    rw [heq] at hrec
    simp only [List.cons_append, resolveSegs, hlk, List.append_eq]
    rw [heq]
    simp [hrec]

/-! ## Claim theorems: compiler pipeline -/
/-- C1: for every root entity kind, compiling the bare wildcard query
`"*"` bypasses the lexer/parser and the semantic resolver (it is never a
syntax error, even though the bare token does not lex) and produces the
empty/match-all Wire Filter. -/
theorem c1_wildcard_match_all :
    (∀ k : EntityKind, compileQuery k "*" = .ok .all)
    ∧ (∃ m, parse "*" = .error (.syn m)) := by
  refine ⟨fun k => rfl, ⟨"unexpected character", ?_⟩⟩
  rfl

/-- C2: accessing a collection without an index parses to exactly the same
AST node as the explicit index 0 (both at the head of a path and after a
dot), resolution treats an explicit index 0 and the unindexed form of a
collection field identically, and in particular
`topics[0].msgpaths[x].max` and `topics.msgpaths[x].max` parse to the same
AST and resolve to identical annotated ASTs. -/
theorem c2_unindexed_collection_index_zero :
    (∀ (s : String) (rest : List Token), segFrom s (.bracketed "0" :: rest) = (.nm s, rest))
    ∧ (∀ (acc : List Segment) (s : String) (rest : List Token),
        (∀ k', rest.head? ≠ some (.bracketed k')) →
        parsePathAux acc (.dot :: .ident s :: .bracketed "0" :: rest)
          = parsePathAux acc (.dot :: .ident s :: rest))
    ∧ (∀ (k k2 : EntityKind) (s : String) (suf : List Segment),
        lookupField k s = some (.collection k2) →
        resolveSegs k (.idx s 0 :: suf) = resolveSegs k (.nm s :: suf))
    ∧ parse "topics[0].msgpaths[x].max > 1" = parse "topics.msgpaths[x].max > 1"
    ∧ resolveAst .file (.cmp [.idx "topics" 0, .key "msgpaths" "x", .nm "max"] .gt (.lnum false 1 0))
      = resolveAst .file (.cmp [.nm "topics", .key "msgpaths" "x", .nm "max"] .gt (.lnum false 1 0)) := by
  refine ⟨fun s rest => rfl, ?_, ?_, by decide, by decide⟩
  · intro acc s rest h
    match rest with
    | [] => rfl
    | .bracketed k' :: r => exact absurd rfl (h k')
    | .ident _ :: r => rfl
    | .kAnd :: r => rfl
    | .kOr :: r => rfl
    | .kNot :: r => rfl
    | .kContains :: r => rfl
    | .kNotContains :: r => rfl
    | .kTrue :: r => rfl
    | .kFalse :: r => rfl
    | .str _ :: r => rfl
    | .num _ _ _ :: r => rfl
    | .opEq :: r => rfl
    | .opNe :: r => rfl
    | .opGt :: r => rfl
    | .opGe :: r => rfl
    | .opLt :: r => rfl
    | .opLe :: r => rfl
    | .lparen :: r => rfl
    | .rparen :: r => rfl
    | .dot :: r => rfl
  · intro k k2 s suf h
    cases suf with
    | nil => simp [resolveSegs, h]
    | cons a l => simp [resolveSegs, h]

/-- Closed witness for C2 at the collection field `topics` of kind file. -/
theorem c2_witness :
    parsePathAux [] [.dot, .ident "topics", .bracketed "0", .dot, .ident "max"]
      = parsePathAux [] [.dot, .ident "topics", .dot, .ident "max"]
    ∧ resolveSegs .file (.idx "topics" 0 :: [.key "msgpaths" "x", .nm "max"])
      = resolveSegs .file (.nm "topics" :: [.key "msgpaths" "x", .nm "max"]) :=
  ⟨c2_unindexed_collection_index_zero.2.1 [] "topics" [.dot, .ident "max"]
      (fun k' => by simp),
    c2_unindexed_collection_index_zero.2.2.1 .file .topic "topics"
      [.key "msgpaths" "x", .nm "max"] rfl⟩

/-- C4: the filter compiler is total over every annotated AST produced by
a successful run of the semantic resolver — lowering cannot fail after
resolution has succeeded. -/
theorem c4_lowering_total_after_resolution :
    ∀ (k : EntityKind) (t : Ast) (a : Ann),
      resolveAst k t = .ok a → ∃ w, lowerAnn a = .ok w := by
  intro k t
  induction t with
  | cmp p op l =>
    intro a h
    unfold resolveAst at h
    match hr : resolveSegs k p with
    | .error e => rw [hr] at h; simp at h
    | .ok (segs, vk) =>
      rw [hr] at h
      by_cases hc : opCompatible op vk = true
      · simp only [hc, if_true] at h
        match hco : coerceLit vk l with
        | .error e => rw [hco] at h; simp at h
        | .ok w =>
          rw [hco] at h
          simp at h
          subst h
          exact ⟨.cmp (renderRPath segs) (wireOpStr op) w, by simp [lowerAnn, wireOpName, hc]⟩
      · simp [hc] at h
  | conj a b iha ihb =>
    intro ann h
    unfold resolveAst at h
    match ha : resolveAst k a with
    | .error e => rw [ha] at h; simp at h
    | .ok a2 =>
      rw [ha] at h
      match hb : resolveAst k b with
      | .error e => rw [hb] at h; simp at h
      | .ok b2 =>
        rw [hb] at h
        simp at h
        subst h
        obtain ⟨w1, hw1⟩ := iha a2 ha
        obtain ⟨w2, hw2⟩ := ihb b2 hb
        exact ⟨.conj w1 w2, by simp [lowerAnn, hw1, hw2]⟩
  | disj a b iha ihb =>
    intro ann h
    unfold resolveAst at h
    match ha : resolveAst k a with
    | .error e => rw [ha] at h; simp at h
    | .ok a2 =>
      rw [ha] at h
      match hb : resolveAst k b with
      | .error e => rw [hb] at h; simp at h
      | .ok b2 =>
        rw [hb] at h
        simp at h
        subst h
        obtain ⟨w1, hw1⟩ := iha a2 ha
        obtain ⟨w2, hw2⟩ := ihb b2 hb
        exact ⟨.disj w1 w2, by simp [lowerAnn, hw1, hw2]⟩
  | neg a iha =>
    intro ann h
    unfold resolveAst at h
    match ha : resolveAst k a with
    | .error e => rw [ha] at h; simp at h
    | .ok a2 =>
      rw [ha] at h
      simp at h
      subst h
      obtain ⟨w1, hw1⟩ := iha a2 ha
      exact ⟨.neg w1, by simp [lowerAnn, hw1]⟩

/-- Closed witness for C4 at a resolved timestamp comparison. -/
theorem c4_witness :
    ∃ w, lowerAnn (.cmp ⟨[.rname "created"], .vtimestamp⟩ .gt (.wts 5)) = .ok w :=
  c4_lowering_total_after_resolution .file (.cmp [.nm "created"] .gt (.lnum false 5 0))
    (.cmp ⟨[.rname "created"], .vtimestamp⟩ .gt (.wts 5)) (by decide)

/-- C6: a query whose field path reaches a field name unknown to the
Schema Registry fails at compile time with a schema error: resolution of
such a path fails with the schema error naming the field at any
navigation depth, a comparison with a failing path propagates the schema
error synchronously, a successfully resolved query has every comparison
path resolving (so no filter is ever produced from an unknown field), and
`dataset.nonexistent_field = 1` compiles to a schema error on kind
file. -/
theorem c6_unknown_field_schema_error :
    (∀ (k k2 : EntityKind) (pre : List Segment) (s : String) (suf : List Segment),
        Navigates k pre k2 → lookupField k2 s = none →
        resolveSegs k (pre ++ .nm s :: suf) = .error (.schema ("unknown field: " ++ s)))
    ∧ (∀ (k : EntityKind) (p : List Segment) (op : CompOp) (l : Literal) (e : RErr),
        resolveSegs k p = .error e → resolveAst k (.cmp p op l) = .error e)
    ∧ (∀ (k : EntityKind) (t : Ast) (ann : Ann),
        resolveAst k t = .ok ann → ∀ c ∈ comps t, ∃ r, resolveSegs k c.1 = .ok r)
    ∧ compileQuery .file "dataset.nonexistent_field = 1"
        = .error (.schema "unknown field: nonexistent_field") := by
  refine ⟨?_, ?_, ?_, by decide⟩
  · intro k k2 pre s suf hnav hs
    exact navigates_unknown hnav s hs suf
  · intro k p op l e h
    exact resolveAst_cmp_path_error h
  · intro k t ann h
    exact resolve_ok_paths t ann h

/-- Closed witness for C6: the unknown field `nonexistent_field` reached
through the `dataset` relationship of kind file. -/
theorem c6_witness :
    resolveSegs .file ([Segment.nm "dataset"] ++ Segment.nm "nonexistent_field" :: [])
      = .error (.schema ("unknown field: " ++ "nonexistent_field")) :=
  c6_unknown_field_schema_error.1 .file .dataset [Segment.nm "dataset"] "nonexistent_field" []
    (Navigates.entity rfl (Navigates.nil .dataset)) rfl

/-- C7: a comparison whose operator is invalid for the statically inferred
value kind of the terminal attribute is rejected by the resolver with a
validation error; `CONTAINS` is invalid on the strictly numeric kind, and
in particular `topics[0].msgpaths[x].max CONTAINS 5` fails compilation
with a validation error on kind file. -/
theorem c7_operator_type_mismatch_rejected :
    opCompatible .contains .vnum = false
    ∧ (∀ (k : EntityKind) (p : List Segment) (op : CompOp) (l : Literal)
        (segs : List RSeg) (vk : ValueKind),
        resolveSegs k p = .ok (segs, vk) → opCompatible op vk = false →
        resolveAst k (.cmp p op l)
          = .error (.validation "operator not allowed for field type"))
    ∧ compileQuery .file "topics[0].msgpaths[x].max CONTAINS 5"
        = .error (.validation "operator not allowed for field type") := by
  refine ⟨rfl, ?_, by decide⟩
  intro k p op l segs vk h hop
  exact resolveAst_cmp_incompatible h hop

/-- Closed witness for C7: `CONTAINS` on the numeric statistic `max`. -/
theorem c7_witness :
    resolveAst .file (.cmp [.nm "topics", .key "msgpaths" "x", .nm "max"] .contains (.lnum false 5 0))
      = .error (.validation "operator not allowed for field type") :=
  c7_operator_type_mismatch_rejected.2.1 .file
    [.nm "topics", .key "msgpaths" "x", .nm "max"] .contains (.lnum false 5 0)
    [.rindex "topics" 0, .rkey "msgpaths" "x", .rname "max"] .vnum (by decide) rfl

/-- C9: for a comparison against a timestamp-valued field with a
compatible operator, the resolver accepts an unquoted numeric literal,
normalising it as nanoseconds since epoch, and accepts a quoted ISO-8601
string literal, parsing it as a calendar timestamp; both concrete forms
compile on kind file. -/
theorem c9_timestamp_literal_forms :
    (∀ (k : EntityKind) (p : List Segment) (op : CompOp) (segs : List RSeg)
        (neg : Bool) (m : Nat) (e : Int),
        resolveSegs k p = .ok (segs, .vtimestamp) → opCompatible op .vtimestamp = true →
        resolveAst k (.cmp p op (.lnum neg m e))
          = .ok (.cmp ⟨segs, .vtimestamp⟩ op (.wts (numToNs neg m e))))
    ∧ (∀ (k : EntityKind) (p : List Segment) (op : CompOp) (segs : List RSeg)
        (s : String) (ns : Int),
        resolveSegs k p = .ok (segs, .vtimestamp) → opCompatible op .vtimestamp = true →
        isoToNs s = some ns →
        resolveAst k (.cmp p op (.lstr s))
          = .ok (.cmp ⟨segs, .vtimestamp⟩ op (.wts ns)))
    ∧ compileQuery .file "created > \"2024-01-01\""
        = .ok (.cmp "created" "gt" (.wts 1704067200000000000))
    ∧ compileQuery .file "created > 1714513576000000000"
        = .ok (.cmp "created" "gt" (.wts 1714513576000000000)) := by
  refine ⟨?_, ?_, by decide, by decide⟩
  · intro k p op segs neg m e h hop
    unfold resolveAst
    rw [h]
    simp [hop, coerceLit]
  · intro k p op segs s ns h hop hiso
    unfold resolveAst
    rw [h]
    simp [hop, coerceLit, hiso]

/-- Closed witness for C9 on the `created` field of kind file. -/
theorem c9_witness :
    resolveAst .file (.cmp [.nm "created"] .gt (.lnum false 1714513576 9))
      = .ok (.cmp ⟨[.rname "created"], .vtimestamp⟩ .gt (.wts (numToNs false 1714513576 9)))
    ∧ resolveAst .file (.cmp [.nm "created"] .gt (.lstr "2024-01-01"))
      = .ok (.cmp ⟨[.rname "created"], .vtimestamp⟩ .gt (.wts 1704067200000000000)) :=
  ⟨c9_timestamp_literal_forms.1 .file [.nm "created"] .gt [.rname "created"]
      false 1714513576 9 rfl rfl,
    c9_timestamp_literal_forms.2.1 .file [.nm "created"] .gt [.rname "created"]
      "2024-01-01" 1704067200000000000 rfl rfl (by decide)⟩

/-! ## Claim theorems: pagination -/
/-- C5: over any backend page chain in which every page but the last
carries a continuation token and the last does not, the cursor yields
exactly the fetched records, once each, in page order, and then terminates
(every further pull reports the end of the sequence). -/
theorem c5_cursor_yields_in_order :
    ∀ {α : Type} (pages : List (Page α)), goodChain pages = true → ∀ n : Nat,
      runT ((joinRecs pages).length + 1 + n) (Cursor.fresh (pages.map .ok))
        = (joinRecs pages).map PullOut.yield ++ List.replicate (n + 1) PullOut.done := by
  intro α pages h n
  exact chain_trace pages none false h (Or.inl rfl) n

/-- Closed witness for C5: three pages of sizes 10, 10 and 4 with tokens
`T1`, `T2` and none yield exactly 24 records in page order, then
terminate. -/
theorem c5_witness :
    goodChain ([⟨[0, 1, 2, 3, 4, 5, 6, 7, 8, 9], some "T1", none⟩,
        ⟨[10, 11, 12, 13, 14, 15, 16, 17, 18, 19], some "T2", none⟩,
        ⟨[20, 21, 22, 23], none, some 24⟩] : List (Page Nat)) = true
    ∧ runT ((joinRecs ([⟨[0, 1, 2, 3, 4, 5, 6, 7, 8, 9], some "T1", none⟩,
          ⟨[10, 11, 12, 13, 14, 15, 16, 17, 18, 19], some "T2", none⟩,
          ⟨[20, 21, 22, 23], none, some 24⟩] : List (Page Nat))).length + 1 + 0)
        (Cursor.fresh (([⟨[0, 1, 2, 3, 4, 5, 6, 7, 8, 9], some "T1", none⟩,
          ⟨[10, 11, 12, 13, 14, 15, 16, 17, 18, 19], some "T2", none⟩,
          ⟨[20, 21, 22, 23], none, some 24⟩] : List (Page Nat)).map .ok))
      = (joinRecs ([⟨[0, 1, 2, 3, 4, 5, 6, 7, 8, 9], some "T1", none⟩,
          ⟨[10, 11, 12, 13, 14, 15, 16, 17, 18, 19], some "T2", none⟩,
          ⟨[20, 21, 22, 23], none, some 24⟩] : List (Page Nat))).map PullOut.yield
        ++ List.replicate (0 + 1) PullOut.done :=
  ⟨by decide,
    c5_cursor_yields_in_order
      ([⟨[0, 1, 2, 3, 4, 5, 6, 7, 8, 9], some "T1", none⟩,
        ⟨[10, 11, 12, 13, 14, 15, 16, 17, 18, 19], some "T2", none⟩,
        ⟨[20, 21, 22, 23], none, some 24⟩] : List (Page Nat)) (by decide) 0⟩

/-- C8: a transport failure on a page fetch surfaces at the pull where the
next record would have been produced, leaving the cursor in its terminal
failed state; every pull of a failed cursor reports the failure with the
cursor unchanged — no fetch is retried, no record is ever yielded
again. -/
theorem c8_transport_failure_terminal :
    ∀ {α : Type} (pend : List (Except TransportError (Page α))) (e : TransportError)
      (tk : Option String) (st : Bool),
      (st = false ∨ tk.isSome = true) →
      pull (⟨.error e :: pend, [], tk, st, false⟩ : Cursor α)
        = (.failure, ⟨pend, [], tk, true, true⟩)
      ∧ (∀ c : Cursor α, c.failed = true → pull c = (.failure, c))
      ∧ (∀ n, runT n (⟨pend, [], tk, true, true⟩ : Cursor α)
          = List.replicate n .failure) := by
  intro α pend e tk st h
  have hc : (st && tk.isNone) = false := by
    rcases h with h | h
    · simp [h]
    · simp [Option.isSome_iff_exists] at h
      obtain ⟨x, rfl⟩ := h
      simp
  refine ⟨?_, fun c hcf => pull_failed c hcf, fun n => runT_failed n _ rfl⟩
  simp [pull, pullF, hc]

/-- Closed witness for C8: a failing first fetch on a fresh cursor. -/
theorem c8_witness :
    pull (⟨[.error ⟨"boom"⟩], [], none, false, false⟩ : Cursor Nat)
      = (.failure, ⟨[], [], none, true, true⟩)
    ∧ (∀ c : Cursor Nat, c.failed = true → pull c = (.failure, c))
    ∧ (∀ n, runT n (⟨[], [], none, true, true⟩ : Cursor Nat)
        = List.replicate n .failure) :=
  c8_transport_failure_terminal [] ⟨"boom"⟩ none false (Or.inl rfl)

/-! ## Lexer inversion lemmas -/
theorem takeWhile_all_append {p : Char → Bool} :
    ∀ (l : List Char) (d : Char) (r : List Char), l.all p = true → p d = false →
      (l ++ d :: r).takeWhile p = l := by
  intro l
  induction l with
  | nil => intro d r _ hd; simp [List.takeWhile_cons, hd]
  | cons c cs ih =>
    intro d r hall hd
    simp only [List.all_cons, Bool.and_eq_true] at hall
    simp [List.takeWhile_cons, hall.1]
    exact ih d r hall.2 hd

theorem dropWhile_all_append {p : Char → Bool} :
    ∀ (l : List Char) (d : Char) (r : List Char), l.all p = true → p d = false →
      (l ++ d :: r).dropWhile p = d :: r := by
  intro l
  induction l with
  | nil => intro d r _ hd; simp [List.dropWhile_cons, hd]
  | cons c cs ih =>
    intro d r hall hd
    simp only [List.all_cons, Bool.and_eq_true] at hall
    simp [List.dropWhile_cons, hall.1]
    exact ih d r hall.2 hd

theorem scanStr_escape :
    ∀ (l r : List Char), scanStr dquote (escapeStr l ++ dquote :: r) = some (l, r) := by
  intro l
  induction l with
  | nil =>
    intro r
    simp only [escapeStr, List.nil_append]
    unfold scanStr
    simp
  | cons c cs ih =>
    intro r
    by_cases h : (c = dquote || c = bslash) = true
    · have hne : ¬bslash = dquote := by decide
      simp only [escapeStr, h, if_true, List.cons_append]
      unfold scanStr
      simp [hne, ih r]
    · have h1 : ¬c = dquote := by
        intro hc; exact absurd (by simp [hc]) h
      have h2 : ¬c = bslash := by
        intro hc; exact absurd (by simp [hc]) h
      simp only [escapeStr, h, if_false, List.cons_append]
      unfold scanStr
      simp [h1, h2, ih r]

theorem scanBr_append :
    ∀ (l r : List Char), ']' ∉ l → scanBr (l ++ ']' :: r) = some (l, r) := by
  intro l
  induction l with
  | nil =>
    intro r _
    simp only [List.nil_append]
    unfold scanBr
    simp
  | cons c cs ih =>
    intro r h
    simp only [List.mem_cons, not_or] at h
    have hc : ¬c = ']' := fun hcc => h.1 hcc.symm
    unfold scanBr
    simp [hc, ih r h.2]

theorem scanBr_no_rb :
    ∀ (l : List Char) (s r : List Char), scanBr l = some (s, r) → ']' ∉ s := by
  intro l
  induction l using scanBr.induct with
  | case1 => intro s r h; simp [scanBr] at h
  | case2 ds => intro s r h; unfold scanBr at h; simp at h; simp [h.1]
  | case3 c ds hc s' r' hsc ih =>
    intro s r h
    unfold scanBr at h
    simp [hc, hsc] at h
    have hmem := ih s' r' hsc
    rw [← h.1]
    simp only [List.mem_cons, not_or]
    exact ⟨fun hbad => hc hbad.symm, hmem⟩
  | case4 c ds hc hsc ih =>
    intro s r h
    unfold scanBr at h
    simp [hc, hsc] at h

theorem identStart_not_space {c : Char} (h : isIdentStart c = true) :
    isSpaceChar c = false := by
  simp [isIdentStart, isAlphaChar, isSpaceChar] at h ⊢
  omega

theorem digit_not_space {c : Char} (h : isDigitChar c = true) :
    isSpaceChar c = false := by
  simp [isDigitChar, isSpaceChar] at h ⊢
  omega

theorem digit_not_identStart {c : Char} (h : isDigitChar c = true) :
    isIdentStart c = false := by
  simp [isDigitChar, isIdentStart, isAlphaChar] at h ⊢
  omega

theorem digit_ne_rb {c : Char} (h : isDigitChar c = true) : ¬c = ']' := by
  intro hc
  rw [hc] at h
  simp [isDigitChar] at h

theorem normNum_id (m : Nat) (e : Int) (h : m = 0 ∨ m % 10 ≠ 0) : normNum m e = (m, e) := by
  unfold normNum normNumF
  rcases h with h | h <;> simp [h]

theorem normNumF_canonical :
    ∀ fuel m e, m < fuel → ((normNumF fuel m e).1 = 0 ∨ (normNumF fuel m e).1 % 10 ≠ 0) := by
  intro fuel
  induction fuel with
  | zero => omega
  | succ fuel ih =>
    intro m e hm
    by_cases h : m ≠ 0 ∧ m % 10 = 0
    · rw [normNumF, if_pos h]
      exact ih (m / 10) (e + 1) (by omega)
    · rw [normNumF, if_neg h]
      omega

theorem normNum_canonical (m : Nat) (e : Int) :
    (normNum m e).1 = 0 ∨ (normNum m e).1 % 10 ≠ 0 :=
  normNumF_canonical (m + 1) m e (by omega)

theorem takeFrac_no_dot (c : Char) (l : List Char) (h : ¬c.toNat = 46) :
    takeFrac (c :: l) = ([], c :: l) := by
  match l with
  | [] => rfl
  | d :: rest => simp [takeFrac, h]

theorem digit_ne_45 {c : Char} (h : isDigitChar c = true) : ¬c.toNat = 45 := by
  simp [isDigitChar] at h
  omega

theorem digit_ne_43 {c : Char} (h : isDigitChar c = true) : ¬c.toNat = 43 := by
  simp [isDigitChar] at h
  omega

theorem expDigits_print (e : Int) (he : e ≠ 0) (r : List Char) :
    expDigits (intDigits e ++ ' ' :: r) = some (e, ' ' :: r) := by
  by_cases hneg : e < 0
  · obtain ⟨d, tl, hd⟩ : ∃ d tl, natDigits (-e).toNat = d :: tl := by
      match hnd : natDigits (-e).toNat with
      | [] => exact absurd hnd (natDigits_ne_nil _)
      | d :: tl => exact ⟨d, tl, rfl⟩
    have hdd : isDigitChar d = true := by
      have hall := natDigits_all_digits (-e).toNat
      rw [hd] at hall
      simp at hall
      exact hall.1
    simp only [intDigits, hneg, if_true, List.cons_append]
    unfold expDigits
    rw [hd]
    simp only [List.cons_append, show ('-'.toNat = 45) = True by decide, if_true]
    rw [← List.cons_append, ← hd,
      takeWhile_all_append _ ' ' r (natDigits_all_digits _) (by decide),
      dropWhile_all_append _ ' ' r (natDigits_all_digits _) (by decide),
      digitsToNat_natDigits]
    have hdd2 : (if isDigitChar d = true then
        some (-((-e).toNat : Int), ' ' :: r) else none) = some (-((-e).toNat : Int), ' ' :: r) := by
      rw [if_pos hdd]
    simp [hdd, Int.toNat_of_nonneg (by omega : (0:Int) ≤ -e)]
  · obtain ⟨d, tl, hd⟩ : ∃ d tl, natDigits e.toNat = d :: tl := by
      match hnd : natDigits e.toNat with
      | [] => exact absurd hnd (natDigits_ne_nil _)
      | d :: tl => exact ⟨d, tl, rfl⟩
    have hdd : isDigitChar d = true := by
      have hall := natDigits_all_digits e.toNat
      rw [hd] at hall
      simp at hall
      exact hall.1
    simp only [intDigits, hneg, if_false]
    rw [hd]
    simp only [List.cons_append]
    unfold expDigits
    simp only [digit_ne_45 hdd, digit_ne_43 hdd, hdd, if_false, if_true]
    rw [← List.cons_append, ← hd,
      takeWhile_all_append _ ' ' r (natDigits_all_digits _) (by decide),
      dropWhile_all_append _ ' ' r (natDigits_all_digits _) (by decide),
      digitsToNat_natDigits]
    simp [Int.toNat_of_nonneg (by omega : (0:Int) ≤ e)]

theorem numScan_print (m : Nat) (e : Int) (hm : m = 0 ∨ m % 10 ≠ 0) (r : List Char) :
    numScan ((natDigits m ++ (if e = 0 then [] else 'e' :: intDigits e)) ++ ' ' :: r)
      = (Token.num false m e, ' ' :: r) := by
  by_cases he : e = 0
  · subst he
    have h0 : (natDigits m ++ (if (0 : Int) = 0 then [] else 'e' :: intDigits 0)) ++ ' ' :: r
        = natDigits m ++ ' ' :: r := by simp
    rw [h0]
    simp only [numScan]
    rw [takeWhile_all_append (natDigits m) ' ' r (natDigits_all_digits m) (by decide),
      dropWhile_all_append (natDigits m) ' ' r (natDigits_all_digits m) (by decide),
      takeFrac_no_dot ' ' r (by decide)]
    simp [takeExp, digitsToNat_natDigits, normNum_id m 0 hm]
  · have h1 : (natDigits m ++ (if e = 0 then [] else 'e' :: intDigits e)) ++ ' ' :: r
        = natDigits m ++ 'e' :: (intDigits e ++ ' ' :: r) := by simp [he]
    rw [h1]
    simp only [numScan]
    rw [takeWhile_all_append (natDigits m) 'e' _ (natDigits_all_digits m) (by decide),
      dropWhile_all_append (natDigits m) 'e' _ (natDigits_all_digits m) (by decide),
      takeFrac_no_dot 'e' _ (by decide)]
    have h2 : takeExp ('e' :: (intDigits e ++ ' ' :: r)) = (some e, ' ' :: r) := by
      have hex := expDigits_print e he r
      simp [takeExp, hex]
    rw [h2]
    simp [digitsToNat_natDigits, normNum_id m e hm]

theorem lexGoF_space (fuel : Nat) (r : List Char) :
    lexGoF (fuel + 1) (' ' :: r) = lexGoF fuel r := rfl

theorem lexGoF_cons (fuel : Nat) (c : Char) (cs : List Char) :
    lexGoF (fuel + 1) (c :: cs)
      = match lexStep c cs with
        | .emit t rest => consTok t (lexGoF fuel rest)
        | .skip rest => lexGoF fuel rest
        | .fail m => .error ⟨m⟩ := rfl

theorem lexStep_ident {c : Char} (hc : isIdentStart c = true) (cs : List Char) :
    lexStep c cs
      = .emit (classify (c :: cs.takeWhile isIdentChar)) (cs.dropWhile isIdentChar) := by
  unfold lexStep
  rw [if_neg (by simp [identStart_not_space hc]), if_pos hc]

theorem lexStep_digit {c : Char} (hc : isDigitChar c = true) (cs : List Char) :
    lexStep c cs = .emit (numScan (c :: cs)).1 (numScan (c :: cs)).2 := by
  unfold lexStep
  rw [if_neg (by simp [digit_not_space hc]), if_neg (by simp [digit_not_identStart hc]),
    if_pos hc]

theorem lexStep_minus {d : Char} (hd : isDigitChar d = true) (tl : List Char) :
    lexStep '-' (d :: tl) = .emit (negTok (numScan (d :: tl)).1) (numScan (d :: tl)).2 := by
  unfold lexStep
  rw [if_neg (by decide), if_neg (by decide), if_neg (by decide), if_pos (by decide)]
  simp [hd]

theorem lexStep_quote (cs : List Char) :
    lexStep dquote cs
      = match scanStr dquote cs with
        | some (s, r) => .emit (.str (String.mk s)) r
        | none => .fail "unterminated string literal" := rfl

theorem lexStep_bracket (cs : List Char) :
    lexStep '[' cs
      = match scanBr cs with
        | some (s, r) =>
          if s.isEmpty then .fail "empty brackets"
          else .emit (.bracketed (String.mk s)) r
        | none => .fail "unbalanced bracket" := rfl

theorem lex_word (c : Char) (cs : List Char) (hc : isIdentStart c = true)
    (hcs : cs.all isIdentChar = true) (fuel : Nat) (r : List Char) :
    lexGoF (fuel + 2) ((c :: cs) ++ ' ' :: r) = consTok (classify (c :: cs)) (lexGoF fuel r) := by
  rw [show ((c :: cs) ++ ' ' :: r) = c :: (cs ++ ' ' :: r) from rfl,
    lexGoF_cons, lexStep_ident hc,
    takeWhile_all_append cs ' ' r hcs (by decide),
    dropWhile_all_append cs ' ' r hcs (by decide)]
  rfl

theorem classify_not_keyword (l : List Char) (h : keywordChars l = false) :
    classify l = .ident (String.mk l) := by
  simp only [keywordChars, Bool.or_eq_false_iff] at h
  obtain ⟨⟨⟨⟨⟨⟨h1, h2⟩, h3⟩, h4⟩, h5⟩, h6⟩, h7⟩ := h
  simp only [decide_eq_false_iff_not] at h1 h2 h3 h4 h5 h6 h7
  simp [classify, h1, h2, h3, h4, h5, h6, h7]

theorem lex_token : ∀ (t : Token), TokWF t = true → ∀ (fuel : Nat) (r : List Char),
    lexGoF (fuel + 2) (tokText t ++ ' ' :: r) = consTok t (lexGoF fuel r) := by
  intro t h fuel r
  match t with
  | .ident s =>
    simp only [TokWF, Bool.and_eq_true, Bool.not_eq_true'] at h
    obtain ⟨hshape, hkw⟩ := h
    match hs : s.data with
    | [] => rw [hs] at hshape; simp [identShape] at hshape
    | c :: cs =>
      rw [hs] at hshape hkw
      simp only [identShape, Bool.and_eq_true] at hshape
      have ht : tokText (.ident s) ++ ' ' :: r = (c :: cs) ++ ' ' :: r := by
        simp [tokText, hs]
      rw [ht, lex_word c cs hshape.1 hshape.2, classify_not_keyword _ hkw]
      have hms : String.mk (c :: cs) = s := by rw [← hs]
      rw [hms]
  | .kAnd => exact lex_word 'A' ['N', 'D'] (by decide) (by decide) fuel r
  | .kOr => exact lex_word 'O' ['R'] (by decide) (by decide) fuel r
  | .kNot => exact lex_word 'N' ['O', 'T'] (by decide) (by decide) fuel r
  | .kContains =>
    exact lex_word 'C' ['O', 'N', 'T', 'A', 'I', 'N', 'S'] (by decide) (by decide) fuel r
  | .kNotContains =>
    exact lex_word 'N' ['O', 'T', '_', 'C', 'O', 'N', 'T', 'A', 'I', 'N', 'S']
      (by decide) (by decide) fuel r
  | .kTrue => exact lex_word 't' ['r', 'u', 'e'] (by decide) (by decide) fuel r
  | .kFalse => exact lex_word 'f' ['a', 'l', 's', 'e'] (by decide) (by decide) fuel r
  | .str s =>
    have ht : tokText (.str s) ++ ' ' :: r
        = dquote :: (escapeStr s.data ++ dquote :: ' ' :: r) := by
      simp [tokText]
    rw [ht, lexGoF_cons, lexStep_quote, scanStr_escape s.data (' ' :: r)]
    rfl
  | .num neg m e =>
    match neg with
    | false =>
      simp only [TokWF] at h
      have hm : m = 0 ∨ m % 10 ≠ 0 := by
        by_cases h0 : m = 0
        · exact Or.inl h0
        · right
          rw [if_neg h0] at h
          simpa using h
      obtain ⟨d, tl, hd⟩ : ∃ d tl, natDigits m = d :: tl := by
        match hnd : natDigits m with
        | [] => exact absurd hnd (natDigits_ne_nil _)
        | d :: tl => exact ⟨d, tl, rfl⟩
      have hdd : isDigitChar d = true := by
        have hall := natDigits_all_digits m
        rw [hd] at hall
        simp at hall
        exact hall.1
      have ht : tokText (.num false m e) ++ ' ' :: r
          = (natDigits m ++ (if e = 0 then [] else 'e' :: intDigits e)) ++ ' ' :: r := by
        simp [tokText]
      rw [ht, List.append_assoc, hd, List.cons_append, lexGoF_cons, lexStep_digit hdd,
        ← List.cons_append, ← hd, ← List.append_assoc, numScan_print m e hm r]
      rfl
    | true =>
      simp only [TokWF] at h
      have hm0 : m ≠ 0 := by
        by_cases h0 : m = 0
        · rw [if_pos h0] at h
          simp at h
        · exact h0
      have hm : m = 0 ∨ m % 10 ≠ 0 := by
        right
        rw [if_neg hm0] at h
        simpa using h
      obtain ⟨d, tl, hd⟩ : ∃ d tl, natDigits m = d :: tl := by
        match hnd : natDigits m with
        | [] => exact absurd hnd (natDigits_ne_nil _)
        | d :: tl => exact ⟨d, tl, rfl⟩
      have hdd : isDigitChar d = true := by
        have hall := natDigits_all_digits m
        rw [hd] at hall
        simp at hall
        exact hall.1
      have ht : tokText (.num true m e) ++ ' ' :: r
          = '-' :: ((natDigits m ++ (if e = 0 then [] else 'e' :: intDigits e)) ++ ' ' :: r) := by
        simp [tokText]
      rw [ht, List.append_assoc, hd, List.cons_append, lexGoF_cons, lexStep_minus hdd,
        ← List.cons_append, ← hd, ← List.append_assoc, numScan_print m e hm r]
      simp only [negTok, hm0, decide_not, decide_False, Bool.not_false]
      rfl
  | .opEq => rfl
  | .opNe => rfl
  | .opGt => rfl
  | .opGe => rfl
  | .opLt => rfl
  | .opLe => rfl
  | .lparen => rfl
  | .rparen => rfl
  | .dot => rfl
  | .bracketed s =>
    simp only [TokWF, Bool.and_eq_true, Bool.not_eq_true'] at h
    obtain ⟨hne, hnb⟩ := h
    have hnb2 : ']' ∉ s.data := of_decide_eq_true hnb
    have ht : tokText (.bracketed s) ++ ' ' :: r
        = '[' :: (s.data ++ ']' :: ' ' :: r) := by
      simp [tokText]
    rw [ht, lexGoF_cons, lexStep_bracket, scanBr_append s.data (' ' :: r) hnb2]
    have hred : (match (some (s.data, ' ' :: r) : Option (List Char × List Char)) with
        | some (s2, r2) =>
          if s2.isEmpty then LexStep.fail "empty brackets"
          else LexStep.emit (.bracketed (String.mk s2)) r2
        | none => LexStep.fail "unbalanced bracket")
        = LexStep.emit (.bracketed (String.mk s.data)) (' ' :: r) := by
      rw [show (match (some (s.data, ' ' :: r) : Option (List Char × List Char)) with
        | some (s2, r2) =>
          if s2.isEmpty then LexStep.fail "empty brackets"
          else LexStep.emit (.bracketed (String.mk s2)) r2
        | none => LexStep.fail "unbalanced bracket")
          = if s.data.isEmpty then LexStep.fail "empty brackets"
            else LexStep.emit (.bracketed (String.mk s.data)) (' ' :: r) from rfl,
        if_neg (by simp [hne])]
    rw [hred]
    rfl

theorem tokText_length_pos (t : Token) (h : TokWF t = true) : 0 < (tokText t).length := by
  match t with
  | .ident s =>
    simp only [TokWF, Bool.and_eq_true] at h
    match hs : s.data with
    | [] => rw [hs] at h; simp [identShape] at h
    | c :: cs => simp [tokText, hs]
  | .kAnd | .kOr | .kNot | .kContains | .kNotContains | .kTrue | .kFalse => simp [tokText]
  | .str s => simp [tokText]
  | .num neg m e =>
    have hne := natDigits_ne_nil m
    simp [tokText]
    right
    left
    exact List.length_pos.mpr hne
  | .opEq | .opNe | .opGt | .opGe | .opLt | .opLe => simp [tokText]
  | .lparen | .rparen | .dot => simp [tokText]
  | .bracketed s => simp [tokText]

theorem lex_render : ∀ (ts : List Token), (∀ t ∈ ts, TokWF t = true) →
    ∀ fuel, (renderToks ts).length < fuel → lexGoF fuel (renderToks ts) = .ok ts := by
  intro ts
  induction ts with
  | nil =>
    intro _ fuel hf
    match fuel with
    | 0 => omega
    | f + 1 => rfl
  | cons t ts ih =>
    intro hwf fuel hf
    have hwt : TokWF t = true := hwf t (by simp)
    have htp := tokText_length_pos t hwt
    have hlen : (renderToks (t :: ts)).length
        = (tokText t).length + 1 + (renderToks ts).length := by
      simp [renderToks]
      omega
    have hf2 : (renderToks ts).length < fuel - 2 := by omega
    rw [show fuel = (fuel - 2) + 2 from by omega]
    rw [show renderToks (t :: ts) = tokText t ++ ' ' :: renderToks ts from rfl]
    rw [lex_token t hwt (fuel - 2) (renderToks ts)]
    rw [ih (fun t2 ht2 => hwf t2 (by simp [ht2])) (fuel - 2) hf2]
    rfl

theorem classify_wf (c : Char) (cs : List Char) (hc : isIdentStart c = true)
    (hcs : cs.all isIdentChar = true) : TokWF (classify (c :: cs)) = true := by
  by_cases hk : keywordChars (c :: cs) = true
  · simp only [keywordChars, Bool.or_eq_true, decide_eq_true_eq] at hk
    rcases hk with ((((((hk | hk) | hk) | hk) | hk) | hk) | hk) <;>
      (rw [hk]; decide)
  · have hk2 : keywordChars (c :: cs) = false := by
      revert hk
      cases keywordChars (c :: cs) <;> simp
    rw [classify_not_keyword _ hk2]
    simp [TokWF, identShape, hc, hcs, hk2]

theorem normNum_tok_wf (m : Nat) (e : Int) :
    TokWF (Token.num false (normNum m e).1 (normNum m e).2) = true := by
  simp only [TokWF]
  by_cases h0 : (normNum m e).1 = 0
  · rw [if_pos h0]
    rfl
  · rw [if_neg h0]
    rcases normNum_canonical m e with h | h
    · exact absurd h h0
    · simp [h]

theorem negTok_num_wf (m : Nat) (e : Int) :
    TokWF (negTok (Token.num false (normNum m e).1 (normNum m e).2)) = true := by
  simp only [negTok, TokWF]
  by_cases h0 : (normNum m e).1 = 0
  · rw [if_pos h0]
    simp [h0]
  · rw [if_neg h0]
    rcases normNum_canonical m e with h | h
    · exact absurd h h0
    · simp [h]

theorem numScan_wf (l : List Char) : TokWF (numScan l).1 = true := by
  unfold numScan
  exact normNum_tok_wf _ _

theorem negTok_numScan_wf (l : List Char) : TokWF (negTok (numScan l).1) = true := by
  unfold numScan
  exact negTok_num_wf _ _

theorem lexStep_emit_wf {c : Char} {cs : List Char} {t : Token} {rest : List Char}
    (h : lexStep c cs = .emit t rest) : TokWF t = true := by
  unfold lexStep at h
  by_cases h1 : isSpaceChar c = true
  · rw [if_pos h1] at h
    simp at h
  · rw [if_neg h1] at h
    by_cases h2 : isIdentStart c = true
    · rw [if_pos h2] at h
      simp only [LexStep.emit.injEq] at h
      rw [← h.1]
      refine classify_wf c _ h2 ?_
      simp only [List.all_eq_true]
      intro x hx
      exact List.mem_takeWhile_imp hx
    · rw [if_neg h2] at h
      by_cases h3 : isDigitChar c = true
      · rw [if_pos h3] at h
        simp only [LexStep.emit.injEq] at h
        rw [← h.1]
        exact numScan_wf _
      · rw [if_neg h3] at h
        by_cases h4 : c.toNat = 45
        · rw [if_pos h4] at h
          match cs, h with
          | d :: tl, h =>
            have h' : (if isDigitChar d = true then
                LexStep.emit (negTok (numScan (d :: tl)).1) (numScan (d :: tl)).2
                else LexStep.fail "unexpected character") = LexStep.emit t rest := h
            by_cases h5 : isDigitChar d = true
            · rw [if_pos h5] at h'
              simp only [LexStep.emit.injEq] at h'
              rw [← h'.1]
              exact negTok_numScan_wf _
            · rw [if_neg h5] at h'
              simp at h'
        · rw [if_neg h4] at h
          by_cases h5 : (c = dquote || c = squote) = true
          · rw [if_pos h5] at h
            match hs : scanStr c cs with
            | some (s2, r2) =>
              rw [hs] at h
              have h' : LexStep.emit (Token.str (String.mk s2)) r2 = LexStep.emit t rest := h
              simp only [LexStep.emit.injEq] at h'
              rw [← h'.1]
              rfl
            | none =>
              rw [hs] at h
              exact absurd h (by simp)
          · rw [if_neg h5] at h
            by_cases h6 : c.toNat = 91
            · rw [if_pos h6] at h
              match hs : scanBr cs with
              | some (s2, r2) =>
                rw [hs] at h
                have h' : (if s2.isEmpty then LexStep.fail "empty brackets"
                    else LexStep.emit (Token.bracketed (String.mk s2)) r2)
                    = LexStep.emit t rest := h
                by_cases h7 : s2.isEmpty = true
                · rw [if_pos h7] at h'
                  simp at h'
                · rw [if_neg h7] at h'
                  simp only [LexStep.emit.injEq] at h'
                  rw [← h'.1]
                  simp only [TokWF, Bool.and_eq_true, Bool.not_eq_true']
                  refine ⟨by simpa using h7, ?_⟩
                  simp [scanBr_no_rb cs s2 r2 hs]
              | none =>
                rw [hs] at h
                exact absurd h (by simp)
            · rw [if_neg h6] at h
              by_cases h7 : c.toNat = 40
              · rw [if_pos h7] at h
                simp only [LexStep.emit.injEq] at h
                rw [← h.1]
                rfl
              · rw [if_neg h7] at h
                by_cases h8 : c.toNat = 41
                · rw [if_pos h8] at h
                  simp only [LexStep.emit.injEq] at h
                  rw [← h.1]
                  rfl
                · rw [if_neg h8] at h
                  by_cases h9 : c.toNat = 46
                  · rw [if_pos h9] at h
                    simp only [LexStep.emit.injEq] at h
                    rw [← h.1]
                    rfl
                  · rw [if_neg h9] at h
                    by_cases h10 : c.toNat = 61
                    · rw [if_pos h10] at h
                      simp only [LexStep.emit.injEq] at h
                      rw [← h.1]
                      rfl
                    · rw [if_neg h10] at h
                      by_cases h11 : c.toNat = 33
                      · rw [if_pos h11] at h
                        match cs, h with
                        | d :: r2, h =>
                          have h' : (if d.toNat = 61 then LexStep.emit Token.opNe r2
                              else LexStep.fail "expected = after !") = LexStep.emit t rest := h
                          by_cases h12 : d.toNat = 61
                          · rw [if_pos h12] at h'
                            simp only [LexStep.emit.injEq] at h'
                            rw [← h'.1]
                            rfl
                          · rw [if_neg h12] at h'
                            simp at h'
                      · rw [if_neg h11] at h
                        by_cases h13 : c.toNat = 62
                        · rw [if_pos h13] at h
                          match cs, h with
                          | [], h =>
                            have h' : LexStep.emit Token.opGt [] = LexStep.emit t rest := h
                            simp only [LexStep.emit.injEq] at h'
                            rw [← h'.1]
                            rfl
                          | d :: r2, h =>
                            have h' : (if d.toNat = 61 then LexStep.emit Token.opGe r2
                                else LexStep.emit Token.opGt (d :: r2))
                                = LexStep.emit t rest := h
                            by_cases h14 : d.toNat = 61
                            · rw [if_pos h14] at h'
                              simp only [LexStep.emit.injEq] at h'
                              rw [← h'.1]
                              rfl
                            · rw [if_neg h14] at h'
                              simp only [LexStep.emit.injEq] at h'
                              rw [← h'.1]
                              rfl
                        · rw [if_neg h13] at h
                          by_cases h15 : c.toNat = 60
                          · rw [if_pos h15] at h
                            match cs, h with
                            | [], h =>
                              have h' : LexStep.emit Token.opLt [] = LexStep.emit t rest := h
                              simp only [LexStep.emit.injEq] at h'
                              rw [← h'.1]
                              rfl
                            | d :: r2, h =>
                              have h' : (if d.toNat = 61 then LexStep.emit Token.opLe r2
                                  else LexStep.emit Token.opLt (d :: r2))
                                  = LexStep.emit t rest := h
                              by_cases h16 : d.toNat = 61
                              · rw [if_pos h16] at h'
                                simp only [LexStep.emit.injEq] at h'
                                rw [← h'.1]
                                rfl
                              · rw [if_neg h16] at h'
                                simp only [LexStep.emit.injEq] at h'
                                rw [← h'.1]
                                rfl
                          · rw [if_neg h15] at h
                            simp at h

theorem lexGoF_wf : ∀ (fuel : Nat) (l : List Char) (ts : List Token),
    lexGoF fuel l = .ok ts → ∀ t ∈ ts, TokWF t = true := by
  intro fuel
  induction fuel with
  | zero =>
    intro l ts h
    simp [lexGoF] at h
  | succ fuel ih =>
    intro l ts h
    match l with
    | [] =>
      have h' : Except.ok ([] : List Token) = Except.ok ts := h
      simp at h'
      subst h'
      intro t ht
      simp at ht
    | c :: cs =>
      rw [lexGoF_cons] at h
      match hstep : lexStep c cs with
      | .skip rest =>
        rw [hstep] at h
        have h2 : lexGoF fuel rest = Except.ok ts := h
        exact ih rest ts h2
      | .fail m =>
        rw [hstep] at h
        have h2 : (Except.error ⟨m⟩ : Except LexErr (List Token)) = Except.ok ts := h
        simp at h2
      | .emit t2 rest =>
        rw [hstep] at h
        have h2 : consTok t2 (lexGoF fuel rest) = Except.ok ts := h
        match hrec : lexGoF fuel rest with
        | .error e =>
          rw [hrec] at h2
          simp [consTok] at h2
        | .ok ts2 =>
          rw [hrec] at h2
          simp only [consTok] at h2
          have h' : t2 :: ts2 = ts := by simpa using h2
          subst h'
          intro t ht
          rcases List.mem_cons.mp ht with rfl | ht2
          · exact lexStep_emit_wf hstep
          · exact ih rest ts2 hrec t ht2

theorem astSize_pos (a : Ast) : 1 ≤ astSize a := by
  cases a <;> simp [astSize]

theorem pathToks_eq (sg : Segment) (p : List Segment) :
    pathToks (sg :: p) = segToks sg ++ dotToks p := by
  induction p generalizing sg with
  | nil => simp [pathToks, dotToks]
  | cons sg2 rest ih =>
    rw [show pathToks (sg :: sg2 :: rest) = segToks sg ++ .dot :: pathToks (sg2 :: rest)
      from rfl, ih sg2]
    simp [dotToks]

theorem opTok_wf (op : CompOp) : TokWF (opTok op) = true := by
  cases op <;> rfl

theorem litTok_wf (l : Literal) (h : litWF l = true) : TokWF (litTok l) = true := by
  match l with
  | .lstr s => rfl
  | .lnum neg m e => exact h
  | .lbool true => rfl
  | .lbool false => rfl

theorem asOp_opTok (op : CompOp) : asOp (opTok op) = some op := by
  cases op <;> rfl

theorem asLit_litTok (l : Literal) : asLit (litTok l) = some l := by
  match l with
  | .lstr s => rfl
  | .lnum neg m e => rfl
  | .lbool true => rfl
  | .lbool false => rfl

theorem brSeg_natDigits (s : String) (i : Nat) (hi : i ≠ 0) :
    brSeg s (String.mk (natDigits i)) = .idx s i := by
  unfold brSeg
  rw [show (String.mk (natDigits i)).data = natDigits i from rfl]
  rw [if_pos (natDigits_all_digits i), digitsToNat_natDigits, if_neg hi]

theorem brSeg_key (s k : String) (h : k.data.all isDigitChar = false) :
    brSeg s k = .key s k := by
  unfold brSeg
  rw [if_neg]
  rw [h]
  simp

theorem segFrom_not_br (s : String) (ts : List Token) (h : headBr ts = false) :
    segFrom s ts = (.nm s, ts) := by
  match ts with
  | [] => rfl
  | t :: rest =>
    cases t
    case bracketed k => simp [headBr] at h
    all_goals rfl

theorem parsePathAux_br (acc : List Segment) (s k : String) (ts : List Token) :
    parsePathAux acc (.dot :: .ident s :: .bracketed k :: ts)
      = parsePathAux (acc ++ [brSeg s k]) ts := rfl

theorem parsePathAux_nm (acc : List Segment) (s : String) (ts : List Token)
    (h : headBr ts = false) :
    parsePathAux acc (.dot :: .ident s :: ts) = parsePathAux (acc ++ [.nm s]) ts := by
  match ts with
  | [] => rfl
  | t :: rest =>
    cases t
    case bracketed k => simp [headBr] at h
    all_goals rfl

theorem parsePathAux_stop (acc : List Segment) (ts : List Token) (h : headDot ts = false) :
    parsePathAux acc ts = .ok (acc, ts) := by
  match ts with
  | [] => rfl
  | t :: rest =>
    cases t
    case dot => simp [headDot] at h
    all_goals rfl

theorem headBr_dotToks (p : List Segment) (w : List Token) (hw : headBr w = false) :
    headBr (dotToks p ++ w) = false := by
  match p with
  | [] => exact hw
  | sg :: rest => rfl

theorem parsePathAux_print : ∀ (p : List Segment) (acc : List Segment) (w : List Token),
    p.all segWF = true → headDot w = false → headBr w = false →
    parsePathAux acc (dotToks p ++ w) = .ok (acc ++ p, w) := by
  intro p
  induction p with
  | nil =>
    intro acc w _ hd _
    rw [show dotToks [] ++ w = w from by simp [dotToks], parsePathAux_stop acc w hd]
    simp
  | cons sg rest ih =>
    intro acc w hwf hd hbr
    simp only [List.all_cons, Bool.and_eq_true] at hwf
    obtain ⟨hsg, hrest⟩ := hwf
    have hbr2 : headBr (dotToks rest ++ w) = false := headBr_dotToks rest w hbr
    match sg with
    | .nm s =>
      rw [show dotToks (Segment.nm s :: rest) ++ w
          = .dot :: .ident s :: (dotToks rest ++ w) from by simp [dotToks, segToks]]
      rw [parsePathAux_nm acc s _ hbr2, ih (acc ++ [Segment.nm s]) w hrest hd hbr]
      simp
    | .idx s i =>
      have hi : i ≠ 0 := by
        simp only [segWF, Bool.and_eq_true, decide_eq_true_eq] at hsg
        exact hsg.2
      rw [show dotToks (Segment.idx s i :: rest) ++ w
          = .dot :: .ident s :: .bracketed (String.mk (natDigits i)) :: (dotToks rest ++ w)
          from by simp [dotToks, segToks]]
      rw [parsePathAux_br, brSeg_natDigits s i hi, ih (acc ++ [Segment.idx s i]) w hrest hd hbr]
      simp
    | .key s k =>
      have hk : k.data.all isDigitChar = false := by
        simp only [segWF, Bool.and_eq_true] at hsg
        have := hsg.2.2
        revert this
        cases k.data.all isDigitChar <;> simp
      rw [show dotToks (Segment.key s k :: rest) ++ w
          = .dot :: .ident s :: .bracketed k :: (dotToks rest ++ w)
          from by simp [dotToks, segToks]]
      rw [parsePathAux_br, brSeg_key s k hk, ih (acc ++ [Segment.key s k]) w hrest hd hbr]
      simp

theorem parseComp_tail (s : String) (R : List Token) (segs : List Segment)
    (op : CompOp) (l : Literal) (r : List Token)
    (h : parsePathAux [(segFrom s R).1] (segFrom s R).2 = .ok (segs, opTok op :: litTok l :: r)) :
    parseComp (.ident s :: R) = .ok (.cmp segs op l, r) := by
  have e1 : parseComp (.ident s :: R)
      = (match parsePathAux [(segFrom s R).1] (segFrom s R).2 with
        | .error e => .error e
        | .ok (segs, r1) =>
          match r1 with
          | t :: r2 =>
            match asOp t with
            | some op =>
              (match r2 with
              | lt :: r3 =>
                (match asLit lt with
                | some l => .ok (.cmp segs op l, r3)
                | none => .error ⟨"expected literal value"⟩)
              | [] => .error ⟨"expected literal value"⟩)
            | none => .error ⟨"expected comparison operator"⟩
          | [] => .error ⟨"expected comparison operator"⟩) := rfl
  rw [e1, h]
  cases op <;> (match l with
    | .lstr s2 => rfl
    | .lnum neg m e => rfl
    | .lbool true => rfl
    | .lbool false => rfl)

theorem parseComp_print (p : List Segment) (op : CompOp) (l : Literal) (r : List Token)
    (hne : p ≠ []) (hwf : p.all segWF = true) :
    parseComp (pathToks p ++ opTok op :: litTok l :: r) = .ok (.cmp p op l, r) := by
  have hobr : headBr (opTok op :: litTok l :: r) = false := by cases op <;> rfl
  have hodot : headDot (opTok op :: litTok l :: r) = false := by cases op <;> rfl
  match p, hne with
  | sg :: rest, _ =>
    have hdbr : headBr (dotToks rest ++ opTok op :: litTok l :: r) = false :=
      headBr_dotToks rest _ hobr
    simp only [List.all_cons, Bool.and_eq_true] at hwf
    obtain ⟨hsg, hrest⟩ := hwf
    rw [pathToks_eq]
    match sg with
    | .nm s =>
      rw [show (segToks (Segment.nm s) ++ dotToks rest) ++ opTok op :: litTok l :: r
          = Token.ident s :: (dotToks rest ++ opTok op :: litTok l :: r)
          from by simp [segToks]]
      apply parseComp_tail
      rw [segFrom_not_br s _ hdbr]
      rw [show ([(Segment.nm s, dotToks rest ++ opTok op :: litTok l :: r).1]
          : List Segment) = [Segment.nm s] from rfl]
      rw [show (Segment.nm s, dotToks rest ++ opTok op :: litTok l :: r).2
          = dotToks rest ++ opTok op :: litTok l :: r from rfl]
      rw [parsePathAux_print rest [Segment.nm s] _ hrest hodot hobr]
      rfl
    | .idx s i =>
      have hi : i ≠ 0 := by
        simp only [segWF, Bool.and_eq_true, decide_eq_true_eq] at hsg
        exact hsg.2
      rw [show (segToks (Segment.idx s i) ++ dotToks rest) ++ opTok op :: litTok l :: r
          = Token.ident s :: Token.bracketed (String.mk (natDigits i))
            :: (dotToks rest ++ opTok op :: litTok l :: r)
          from by simp [segToks]]
      apply parseComp_tail
      rw [show segFrom s (Token.bracketed (String.mk (natDigits i))
            :: (dotToks rest ++ opTok op :: litTok l :: r))
          = (brSeg s (String.mk (natDigits i)), dotToks rest ++ opTok op :: litTok l :: r)
          from rfl]
      rw [show ([(brSeg s (String.mk (natDigits i)),
            dotToks rest ++ opTok op :: litTok l :: r).1] : List Segment)
          = [brSeg s (String.mk (natDigits i))] from rfl]
      rw [show (brSeg s (String.mk (natDigits i)),
            dotToks rest ++ opTok op :: litTok l :: r).2
          = dotToks rest ++ opTok op :: litTok l :: r from rfl]
      rw [brSeg_natDigits s i hi]
      rw [parsePathAux_print rest [Segment.idx s i] _ hrest hodot hobr]
      rfl
    | .key s k =>
      have hk : k.data.all isDigitChar = false := by
        simp only [segWF, Bool.and_eq_true] at hsg
        have := hsg.2.2
        revert this
        cases k.data.all isDigitChar <;> simp
      rw [show (segToks (Segment.key s k) ++ dotToks rest) ++ opTok op :: litTok l :: r
          = Token.ident s :: Token.bracketed k
            :: (dotToks rest ++ opTok op :: litTok l :: r)
          from by simp [segToks]]
      apply parseComp_tail
      rw [show segFrom s (Token.bracketed k :: (dotToks rest ++ opTok op :: litTok l :: r))
          = (brSeg s k, dotToks rest ++ opTok op :: litTok l :: r) from rfl]
      rw [show ([(brSeg s k, dotToks rest ++ opTok op :: litTok l :: r).1] : List Segment)
          = [brSeg s k] from rfl]
      rw [show (brSeg s k, dotToks rest ++ opTok op :: litTok l :: r).2
          = dotToks rest ++ opTok op :: litTok l :: r from rfl]
      rw [brSeg_key s k hk]
      rw [parsePathAux_print rest [Segment.key s k] _ hrest hodot hobr]
      rfl

theorem parseNotF_ident (f : Nat) (s : String) (ts : List Token) :
    parseNotF (f + 1) (.ident s :: ts) = parseComp (.ident s :: ts) := rfl

theorem notF_not_step (f : Nat) (ts : List Token) (x : Ast) (r : List Token)
    (h : parseNotF f ts = .ok (x, r)) :
    parseNotF (f + 1) (.kNot :: ts) = .ok (.neg x, r) := by
  have e1 : parseNotF (f + 1) (.kNot :: ts)
      = (match parseNotF f ts with
        | .ok (a, r) => .ok (.neg a, r)
        | .error e => .error e) := rfl
  rw [e1, h]

theorem notF_lparen_step (f : Nat) (ts : List Token) (x : Ast) (r2 : List Token)
    (h : parseOrF f ts = .ok (x, .rparen :: r2)) :
    parseNotF (f + 1) (.lparen :: ts) = .ok (x, r2) := by
  have e1 : parseNotF (f + 1) (.lparen :: ts)
      = (match parseOrF f ts with
        | .ok (a, r) =>
          match r with
          | .rparen :: r2 => .ok (a, r2)
          | _ => .error ⟨"expected closing parenthesis"⟩
        | .error e => .error e) := rfl
  rw [e1, h]

theorem andF_step (f : Nat) (ts : List Token) (x : Ast) (r : List Token)
    (h : parseNotF f ts = .ok (x, r)) :
    parseAndF (f + 1) ts = andLoopF f x r := by
  have e1 : parseAndF (f + 1) ts
      = (match parseNotF f ts with
        | .ok (a, r) => andLoopF f a r
        | .error e => .error e) := rfl
  rw [e1, h]

theorem andLoop_and_step (f : Nat) (acc : Ast) (ts : List Token) (x : Ast) (r : List Token)
    (h : parseNotF f ts = .ok (x, r)) :
    andLoopF (f + 1) acc (.kAnd :: ts) = andLoopF f (.conj acc x) r := by
  have e1 : andLoopF (f + 1) acc (.kAnd :: ts)
      = (match parseNotF f ts with
        | .ok (b, r) => andLoopF f (.conj acc b) r
        | .error e => .error e) := rfl
  rw [e1, h]

theorem andLoop_rparen (f : Nat) (acc : Ast) (ts : List Token) :
    andLoopF (f + 1) acc (.rparen :: ts) = .ok (acc, .rparen :: ts) := rfl

theorem andLoop_or (f : Nat) (acc : Ast) (ts : List Token) :
    andLoopF (f + 1) acc (.kOr :: ts) = .ok (acc, .kOr :: ts) := rfl

theorem andLoop_nil (f : Nat) (acc : Ast) :
    andLoopF (f + 1) acc [] = .ok (acc, []) := rfl

theorem orF_step (f : Nat) (ts : List Token) (x : Ast) (r : List Token)
    (h : parseAndF f ts = .ok (x, r)) :
    parseOrF (f + 1) ts = orLoopF f x r := by
  have e1 : parseOrF (f + 1) ts
      = (match parseAndF f ts with
        | .ok (a, r) => orLoopF f a r
        | .error e => .error e) := rfl
  rw [e1, h]

theorem orLoop_or_step (f : Nat) (acc : Ast) (ts : List Token) (x : Ast) (r : List Token)
    (h : parseAndF f ts = .ok (x, r)) :
    orLoopF (f + 1) acc (.kOr :: ts) = orLoopF f (.disj acc x) r := by
  have e1 : orLoopF (f + 1) acc (.kOr :: ts)
      = (match parseAndF f ts with
        | .ok (b, r) => orLoopF f (.disj acc b) r
        | .error e => .error e) := rfl
  rw [e1, h]

theorem orLoop_rparen (f : Nat) (acc : Ast) (ts : List Token) :
    orLoopF (f + 1) acc (.rparen :: ts) = .ok (acc, .rparen :: ts) := rfl

theorem orLoop_nil (f : Nat) (acc : Ast) :
    orLoopF (f + 1) acc [] = .ok (acc, []) := rfl

theorem parseNotF_print : ∀ (a : Ast), astWF a = true → ∀ (fuel : Nat),
    4 * astSize a ≤ fuel → ∀ (r : List Token),
    parseNotF (fuel + 1) (astToks a ++ r) = .ok (a, r) := by
  intro a
  induction a with
  | cmp p op l =>
    intro hwf fuel _ r
    simp only [astWF, Bool.and_eq_true] at hwf
    obtain ⟨⟨hne, hwfp⟩, _⟩ := hwf
    have hne2 : p ≠ [] := by
      revert hne
      cases p <;> simp
    have hcomp := parseComp_print p op l r hne2 hwfp
    match p, hne2, hwfp, hcomp with
    | sg :: rest, _, hwfp, hcomp =>
      have hfirst : ∃ s tl, segToks sg = .ident s :: tl := by
        cases sg <;> exact ⟨_, _, rfl⟩
      obtain ⟨s, tl, hseg⟩ := hfirst
      have htk : astToks (.cmp (sg :: rest) op l) ++ r
          = Token.ident s :: (tl ++ dotToks rest ++ opTok op :: litTok l :: r) := by
        simp [astToks, pathToks_eq, hseg]
      rw [htk, parseNotF_ident]
      rw [← htk]
      rw [show astToks (Ast.cmp (sg :: rest) op l) ++ r
          = pathToks (sg :: rest) ++ opTok op :: litTok l :: r
          from by simp [astToks]]
      exact hcomp
  | neg a ih =>
    intro hwf fuel hf r
    have hwa : astWF a = true := hwf
    obtain ⟨g, rfl⟩ : ∃ g, fuel = g + 1 := by
      refine ⟨fuel - 1, ?_⟩
      have := astSize_pos a
      simp only [astSize] at hf
      omega
    have hga : 4 * astSize a ≤ g := by
      simp only [astSize] at hf
      omega
    rw [show astToks (Ast.neg a) ++ r = Token.kNot :: (astToks a ++ r) from by simp [astToks]]
    exact notF_not_step (g + 1) (astToks a ++ r) a r (ih hwa g hga r)
  | conj a b iha ihb =>
    intro hwf fuel hf r
    simp only [astWF, Bool.and_eq_true] at hwf
    obtain ⟨hwa, hwb⟩ := hwf
    obtain ⟨g, rfl⟩ : ∃ g, fuel = g + 4 := by
      refine ⟨fuel - 4, ?_⟩
      have ha := astSize_pos a
      have hb := astSize_pos b
      simp only [astSize] at hf
      omega
    have hga : 4 * astSize a ≤ g + 1 := by
      have hb := astSize_pos b
      simp only [astSize] at hf
      omega
    have hgb : 4 * astSize b ≤ g := by
      have ha := astSize_pos a
      simp only [astSize] at hf
      omega
    have hb2 : parseNotF (g + 1) (astToks b ++ .rparen :: r) = .ok (b, .rparen :: r) :=
      ihb hwb g hgb (.rparen :: r)
    have ha2 : parseNotF (g + 2) (astToks a ++ .kAnd :: (astToks b ++ .rparen :: r))
        = .ok (a, .kAnd :: (astToks b ++ .rparen :: r)) :=
      iha hwa (g + 1) hga (.kAnd :: (astToks b ++ .rparen :: r))
    have hAnd : parseAndF (g + 3) (astToks a ++ .kAnd :: (astToks b ++ .rparen :: r))
        = .ok (.conj a b, .rparen :: r) := by
      have s1 := andF_step (g + 2) _ a (.kAnd :: (astToks b ++ .rparen :: r)) ha2
      have s2 := andLoop_and_step (g + 1) a (astToks b ++ .rparen :: r) b (.rparen :: r) hb2
      have s3 := andLoop_rparen g (Ast.conj a b) r
      exact s1.trans (s2.trans s3)
    have hOr : parseOrF (g + 4) (astToks a ++ .kAnd :: (astToks b ++ .rparen :: r))
        = .ok (.conj a b, .rparen :: r) := by
      have s1 := orF_step (g + 3) _ (Ast.conj a b) (.rparen :: r) hAnd
      have s2 := orLoop_rparen (g + 2) (Ast.conj a b) r
      exact s1.trans s2
    rw [show astToks (Ast.conj a b) ++ r
        = Token.lparen :: (astToks a ++ .kAnd :: (astToks b ++ .rparen :: r))
        from by simp [astToks]]
    exact notF_lparen_step (g + 4) _ (Ast.conj a b) r hOr
  | disj a b iha ihb =>
    intro hwf fuel hf r
    simp only [astWF, Bool.and_eq_true] at hwf
    obtain ⟨hwa, hwb⟩ := hwf
    obtain ⟨g, rfl⟩ : ∃ g, fuel = g + 4 := by
      refine ⟨fuel - 4, ?_⟩
      have ha := astSize_pos a
      have hb := astSize_pos b
      simp only [astSize] at hf
      omega
    have hga : 4 * astSize a ≤ g + 1 := by
      have hb := astSize_pos b
      simp only [astSize] at hf
      omega
    have hgb : 4 * astSize b ≤ g := by
      have ha := astSize_pos a
      simp only [astSize] at hf
      omega
    have ha2 : parseNotF (g + 2) (astToks a ++ .kOr :: (astToks b ++ .rparen :: r))
        = .ok (a, .kOr :: (astToks b ++ .rparen :: r)) :=
      iha hwa (g + 1) hga (.kOr :: (astToks b ++ .rparen :: r))
    have hAnd1 : parseAndF (g + 3) (astToks a ++ .kOr :: (astToks b ++ .rparen :: r))
        = .ok (a, .kOr :: (astToks b ++ .rparen :: r)) := by
      have s1 := andF_step (g + 2) _ a (.kOr :: (astToks b ++ .rparen :: r)) ha2
      have s2 := andLoop_or (g + 1) a (astToks b ++ .rparen :: r)
      exact s1.trans s2
    have hb2 : parseNotF (g + 1) (astToks b ++ .rparen :: r) = .ok (b, .rparen :: r) :=
      ihb hwb g hgb (.rparen :: r)
    have hAnd2 : parseAndF (g + 2) (astToks b ++ .rparen :: r)
        = .ok (b, .rparen :: r) := by
      have s1 := andF_step (g + 1) _ b (.rparen :: r) hb2
      have s2 := andLoop_rparen g b r
      exact s1.trans s2
    have hOr : parseOrF (g + 4) (astToks a ++ .kOr :: (astToks b ++ .rparen :: r))
        = .ok (.disj a b, .rparen :: r) := by
      have s1 := orF_step (g + 3) _ a (.kOr :: (astToks b ++ .rparen :: r)) hAnd1
      have s2 := orLoop_or_step (g + 2) a (astToks b ++ .rparen :: r) b (.rparen :: r) hAnd2
      have s3 := orLoop_rparen (g + 1) (Ast.disj a b) r
      exact s1.trans (s2.trans s3)
    rw [show astToks (Ast.disj a b) ++ r
        = Token.lparen :: (astToks a ++ .kOr :: (astToks b ++ .rparen :: r))
        from by simp [astToks]]
    exact notF_lparen_step (g + 4) _ (Ast.disj a b) r hOr

theorem parseOrF_print (a : Ast) (h : astWF a = true) (fuel : Nat)
    (hf : 4 * astSize a + 3 ≤ fuel) :
    parseOrF (fuel + 1) (astToks a) = .ok (a, []) := by
  obtain ⟨g, rfl⟩ : ∃ g, fuel = g + 2 := ⟨fuel - 2, by omega⟩
  have hn : parseNotF (g + 1) (astToks a ++ []) = .ok (a, []) :=
    parseNotF_print a h g (by omega) []
  rw [List.append_nil] at hn
  have hAnd : parseAndF (g + 2) (astToks a) = .ok (a, []) :=
    (andF_step (g + 1) _ a [] hn).trans (andLoop_nil g a)
  exact (orF_step (g + 2) _ a [] hAnd).trans (orLoop_nil (g + 1) a)

theorem asLit_wf (t : Token) (l : Literal) (h : TokWF t = true) (h2 : asLit t = some l) :
    litWF l = true := by
  cases t <;> simp only [asLit] at h2 <;> try exact Option.noConfusion h2
  case str s =>
    injection h2 with h3
    rw [← h3]
    rfl
  case num neg m e =>
    injection h2 with h3
    rw [← h3]
    exact h
  case kTrue =>
    injection h2 with h3
    rw [← h3]
    rfl
  case kFalse =>
    injection h2 with h3
    rw [← h3]
    rfl

theorem brSeg_wf (s k : String) (hs : (identShape s.data && !keywordChars s.data) = true)
    (hk : TokWF (.bracketed k) = true) : segWF (brSeg s k) = true := by
  unfold brSeg
  by_cases hd : k.data.all isDigitChar = true
  · rw [if_pos hd]
    by_cases h0 : digitsToNat k.data = 0
    · rw [if_pos h0]
      exact hs
    · rw [if_neg h0]
      simp only [segWF, Bool.and_eq_true, decide_eq_true_eq]
      exact ⟨Bool.and_eq_true _ _ |>.mp hs, h0⟩
  · rw [if_neg hd]
    simp only [TokWF, Bool.and_eq_true] at hk
    simp only [segWF, Bool.and_eq_true]
    refine ⟨Bool.and_eq_true _ _ |>.mp hs, ⟨hk.1, hk.2⟩, ?_⟩
    revert hd
    cases k.data.all isDigitChar <;> simp

theorem parsePathAux_wf (acc : List Segment) (ts : List Token) :
    ∀ segs r, (∀ t ∈ ts, TokWF t = true) → acc.all segWF = true →
    parsePathAux acc ts = .ok (segs, r) →
    (∃ ext, segs = acc ++ ext) ∧ segs.all segWF = true ∧ r <:+ ts := by
  induction acc, ts using parsePathAux.induct with
  | case1 acc s k rest ih =>
    intro segs r hts hacc h
    rw [parsePathAux_br] at h
    have hid : TokWF (.ident s) = true := hts _ (by simp)
    have hbrt : TokWF (.bracketed k) = true := hts _ (by simp)
    have hseg : segWF (brSeg s k) = true := brSeg_wf s k hid hbrt
    have hacc2 : (acc ++ [brSeg s k]).all segWF = true := by
      simp [hacc, hseg, List.all_append]
    have hts2 : ∀ t ∈ rest, TokWF t = true := fun t ht => hts t (by simp [ht])
    obtain ⟨⟨ext, hext⟩, hall, hsuf⟩ := ih segs r hts2 hacc2 h
    refine ⟨⟨brSeg s k :: ext, by simp [hext]⟩, hall, ?_⟩
    exact hsuf.trans ((List.suffix_cons _ _).trans
      ((List.suffix_cons _ _).trans (List.suffix_cons _ _)))
  | case2 acc s rest hnbr ih =>
    intro segs r hts hacc h
    have hbrf : headBr rest = false := by
      match rest, hnbr with
      | [], _ => rfl
      | t :: rest2, hnbr =>
        cases t
        case bracketed k => exact absurd rfl (hnbr k rest2)
        all_goals rfl
    rw [parsePathAux_nm acc s rest hbrf] at h
    have hid : TokWF (.ident s) = true := hts _ (by simp)
    have hacc2 : (acc ++ [Segment.nm s]).all segWF = true := by
      simp [hacc, List.all_append]
      exact hid
    have hts2 : ∀ t ∈ rest, TokWF t = true := fun t ht => hts t (by simp [ht])
    obtain ⟨⟨ext, hext⟩, hall, hsuf⟩ := ih segs r hts2 hacc2 h
    refine ⟨⟨Segment.nm s :: ext, by simp [hext]⟩, hall, ?_⟩
    exact hsuf.trans ((List.suffix_cons _ _).trans (List.suffix_cons _ _))
  | case3 x tail h1 h2 =>
    intro segs r hts hacc h
    match tail, h1, h2 with
    | [], _, _ => exact Except.noConfusion h
    | t :: t2, h1, h2 =>
      cases t
      case ident s => exact absurd rfl (h2 s t2)
      all_goals exact Except.noConfusion h
  | case4 acc ts h1 h2 h3 =>
    intro segs r hts hacc h
    have hdf : headDot ts = false := by
      match ts, h3 with
      | [], _ => rfl
      | t :: t2, h3 =>
        cases t
        case dot => exact absurd rfl (h3 t2)
        all_goals rfl
    rw [parsePathAux_stop acc ts hdf] at h
    injection h with h2
    injection h2 with h3 h4
    subst h3
    subst h4
    exact ⟨⟨[], by simp⟩, hacc, List.suffix_rfl⟩

theorem segFrom_suffix (s : String) (ts : List Token) : (segFrom s ts).2 <:+ ts := by
  match ts with
  | [] => exact List.suffix_rfl
  | t :: rest =>
    cases t
    case bracketed k => exact List.suffix_cons _ _
    all_goals exact List.suffix_rfl

theorem segFrom_wf (s : String) (ts : List Token)
    (hs : TokWF (.ident s) = true) (hts : ∀ t ∈ ts, TokWF t = true) :
    segWF (segFrom s ts).1 = true := by
  match ts with
  | [] => exact hs
  | t :: rest =>
    cases t
    case bracketed k => exact brSeg_wf s k hs (hts _ (by simp))
    all_goals exact hs

theorem parseComp_wf : ∀ (ts : List Token) (a : Ast) (r : List Token),
    (∀ t ∈ ts, TokWF t = true) → parseComp ts = .ok (a, r) →
    astWF a = true ∧ r <:+ ts := by
  intro ts a r hts h
  match ts, hts, h with
  | [], _, h => exact Except.noConfusion h
  | t :: rest, hts, h =>
    cases t
    case ident s =>
      have e1 : (match parsePathAux [(segFrom s rest).1] (segFrom s rest).2 with
          | .error e => .error e
          | .ok (segs, r1) =>
            match r1 with
            | t :: r2 =>
              match asOp t with
              | some op =>
                (match r2 with
                | lt :: r3 =>
                  (match asLit lt with
                  | some l => .ok (.cmp segs op l, r3)
                  | none => .error ⟨"expected literal value"⟩)
                | [] => .error ⟨"expected literal value"⟩)
              | none => .error ⟨"expected comparison operator"⟩
            | [] => .error ⟨"expected comparison operator"⟩) = Except.ok (a, r) := h
      have hid : TokWF (.ident s) = true := hts _ (by simp)
      have hrest : ∀ t ∈ rest, TokWF t = true := fun t ht => hts t (by simp [ht])
      have hsegts : ∀ t ∈ (segFrom s rest).2, TokWF t = true :=
        fun t ht => hrest t ((segFrom_suffix s rest).subset ht)
      match hpa : parsePathAux [(segFrom s rest).1] (segFrom s rest).2 with
      | .error e =>
        rw [hpa] at e1
        exact Except.noConfusion e1
      | .ok (segs, r1) =>
        rw [hpa] at e1
        have hfirst : ([(segFrom s rest).1] : List Segment).all segWF = true := by
          simp [segFrom_wf s rest hid hrest]
        obtain ⟨⟨ext, hext⟩, hall, hsuf1⟩ :=
          parsePathAux_wf [(segFrom s rest).1] (segFrom s rest).2 segs r1 hsegts hfirst hpa
        match r1, e1, hsuf1 with
        | [], e1, _ => exact Except.noConfusion e1
        | t1 :: r2, e1, hsuf1 =>
          have e2 : (match asOp t1 with
              | some op =>
                (match r2 with
                | lt :: r3 =>
                  (match asLit lt with
                  | some l => Except.ok (Ast.cmp segs op l, r3)
                  | none => Except.error (PErr.mk "expected literal value"))
                | [] => Except.error (PErr.mk "expected literal value"))
              | none => Except.error (PErr.mk "expected comparison operator"))
              = Except.ok (a, r) := e1
          match hop : asOp t1 with
          | none =>
            rw [hop] at e2
            exact Except.noConfusion e2
          | some op =>
            rw [hop] at e2
            match r2, e2, hsuf1 with
            | [], e2, _ => exact Except.noConfusion e2
            | lt :: r3, e2, hsuf1 =>
              have e3 : (match asLit lt with
                  | some l => Except.ok (Ast.cmp segs op l, r3)
                  | none => Except.error (PErr.mk "expected literal value"))
                  = Except.ok (a, r) := e2
              match hlit : asLit lt with
              | none =>
                rw [hlit] at e3
                exact Except.noConfusion e3
              | some l =>
                rw [hlit] at e3
                injection e3 with e4
                injection e4 with e5 e6
                subst e5
                subst e6
                have hltmem : lt ∈ rest := by
                  apply (segFrom_suffix s rest).subset
                  apply hsuf1.subset
                  simp
                have hlw : litWF l = true := asLit_wf lt l (hrest lt hltmem) hlit
                have hsegne : segs ≠ [] := by
                  rw [hext]
                  simp
                constructor
                · simp only [astWF, Bool.and_eq_true]
                  refine ⟨⟨?_, hall⟩, hlw⟩
                  revert hsegne
                  cases segs <;> simp
                · have hr3 : r3 <:+ rest := by
                    have h1 : r3 <:+ lt :: r3 := List.suffix_cons _ _
                    have h2 : lt :: r3 <:+ t1 :: lt :: r3 := List.suffix_cons _ _
                    exact ((h1.trans h2).trans hsuf1).trans (segFrom_suffix s rest)
                  exact hr3.trans (List.suffix_cons _ _)
    all_goals exact Except.noConfusion h

theorem okPairInj {ε α β : Type} {x x2 : α} {y y2 : β}
    (h : (Except.ok (x, y) : Except ε (α × β)) = .ok (x2, y2)) : x = x2 ∧ y = y2 := by
  injection h with h2
  injection h2 with h3 h4
  exact ⟨h3, h4⟩

theorem parsersWF : ∀ fuel : Nat,
    (∀ ts a r, (∀ t ∈ ts, TokWF t = true) → parseNotF fuel ts = .ok (a, r) →
      astWF a = true ∧ r <:+ ts) ∧
    (∀ ts a r, (∀ t ∈ ts, TokWF t = true) → parseAndF fuel ts = .ok (a, r) →
      astWF a = true ∧ r <:+ ts) ∧
    (∀ acc ts a r, (∀ t ∈ ts, TokWF t = true) → astWF acc = true →
      andLoopF fuel acc ts = .ok (a, r) → astWF a = true ∧ r <:+ ts) ∧
    (∀ ts a r, (∀ t ∈ ts, TokWF t = true) → parseOrF fuel ts = .ok (a, r) →
      astWF a = true ∧ r <:+ ts) ∧
    (∀ acc ts a r, (∀ t ∈ ts, TokWF t = true) → astWF acc = true →
      orLoopF fuel acc ts = .ok (a, r) → astWF a = true ∧ r <:+ ts) := by
  intro fuel
  induction fuel with
  | zero =>
    refine ⟨?_, ?_, ?_, ?_, ?_⟩
    · intro ts a r _ h
      exact Except.noConfusion h
    · intro ts a r _ h
      exact Except.noConfusion h
    · intro acc ts a r _ _ h
      exact Except.noConfusion h
    · intro ts a r _ h
      exact Except.noConfusion h
    · intro acc ts a r _ _ h
      exact Except.noConfusion h
  | succ f ih =>
    obtain ⟨ihNot, ihAnd, ihAndL, ihOr, ihOrL⟩ := ih
    refine ⟨?_, ?_, ?_, ?_, ?_⟩
    · intro ts a r hts h
      match ts, hts, h with
      | [], hts, h => exact parseComp_wf [] a r hts h
      | t :: rest, hts, h =>
        cases t
        case kNot =>
          have h2 : (match parseNotF f rest with
              | .ok (x, r1) => Except.ok (Ast.neg x, r1)
              | .error e => Except.error e) = Except.ok (a, r) := h
          match hx : parseNotF f rest with
          | .error e =>
            rw [hx] at h2
            exact Except.noConfusion h2
          | .ok (x, r1) =>
            rw [hx] at h2
            obtain ⟨h4, h5⟩ := okPairInj h2
            subst h4
            subst h5
            have hrest : ∀ t2 ∈ rest, TokWF t2 = true := fun t2 ht => hts t2 (by simp [ht])
            obtain ⟨hw, hsuf⟩ := ihNot rest x r1 hrest hx
            exact ⟨hw, hsuf.trans (List.suffix_cons _ _)⟩
        case lparen =>
          have h2 : (match parseOrF f rest with
              | .ok (x, r1) =>
                (match r1 with
                | Token.rparen :: r2 => Except.ok (x, r2)
                | _ => Except.error (PErr.mk "expected closing parenthesis"))
              | .error e => Except.error e) = Except.ok (a, r) := h
          match hx : parseOrF f rest with
          | .error e =>
            rw [hx] at h2
            exact Except.noConfusion h2
          | .ok (x, r1) =>
            rw [hx] at h2
            have h3 : (match r1 with
                | Token.rparen :: r2 => Except.ok (x, r2)
                | _ => Except.error (PErr.mk "expected closing parenthesis"))
                = Except.ok (a, r) := h2
            have hrest : ∀ t2 ∈ rest, TokWF t2 = true := fun t2 ht => hts t2 (by simp [ht])
            obtain ⟨hw, hsuf⟩ := ihOr rest x r1 hrest hx
            match r1, h3, hsuf with
            | [], h3, _ => exact Except.noConfusion h3
            | t2 :: r2, h3, hsuf =>
              cases t2
              case rparen =>
                obtain ⟨h4, h5⟩ := okPairInj h3
                subst h4
                subst h5
                exact ⟨hw, (((List.suffix_cons _ _).trans hsuf).trans
                  (List.suffix_cons _ _))⟩
              all_goals exact Except.noConfusion h3
        all_goals exact parseComp_wf _ a r hts h
    · intro ts a r hts h
      have h2 : (match parseNotF f ts with
          | .ok (x, r1) => andLoopF f x r1
          | .error e => Except.error e) = Except.ok (a, r) := h
      match hx : parseNotF f ts with
      | .error e =>
        rw [hx] at h2
        exact Except.noConfusion h2
      | .ok (x, r1) =>
        rw [hx] at h2
        obtain ⟨hwx, hsufx⟩ := ihNot ts x r1 hts hx
        have hr1 : ∀ t2 ∈ r1, TokWF t2 = true := fun t2 ht => hts t2 (hsufx.subset ht)
        obtain ⟨hw, hsuf⟩ := ihAndL x r1 a r hr1 hwx h2
        exact ⟨hw, hsuf.trans hsufx⟩
    · intro acc ts a r hts hacc h
      match ts, hts, h with
      | [], hts, h =>
        obtain ⟨h4, h5⟩ := okPairInj h
        subst h4
        subst h5
        exact ⟨hacc, List.suffix_rfl⟩
      | t :: rest, hts, h =>
        cases t
        case kAnd =>
          have h2 : (match parseNotF f rest with
              | .ok (x, r1) => andLoopF f (.conj acc x) r1
              | .error e => Except.error e) = Except.ok (a, r) := h
          match hx : parseNotF f rest with
          | .error e =>
            rw [hx] at h2
            exact Except.noConfusion h2
          | .ok (x, r1) =>
            rw [hx] at h2
            have hrest : ∀ t2 ∈ rest, TokWF t2 = true := fun t2 ht => hts t2 (by simp [ht])
            obtain ⟨hwx, hsufx⟩ := ihNot rest x r1 hrest hx
            have hr1 : ∀ t2 ∈ r1, TokWF t2 = true := fun t2 ht => hrest t2 (hsufx.subset ht)
            have hconj : astWF (Ast.conj acc x) = true := by
              simp [astWF, hacc, hwx]
            obtain ⟨hw, hsuf⟩ := ihAndL (Ast.conj acc x) r1 a r hr1 hconj h2
            exact ⟨hw, (hsuf.trans hsufx).trans (List.suffix_cons _ _)⟩
        all_goals {
          obtain ⟨h4, h5⟩ := okPairInj h
          subst h4
          subst h5
          exact ⟨hacc, List.suffix_rfl⟩
        }
    · intro ts a r hts h
      have h2 : (match parseAndF f ts with
          | .ok (x, r1) => orLoopF f x r1
          | .error e => Except.error e) = Except.ok (a, r) := h
      match hx : parseAndF f ts with
      | .error e =>
        rw [hx] at h2
        exact Except.noConfusion h2
      | .ok (x, r1) =>
        rw [hx] at h2
        obtain ⟨hwx, hsufx⟩ := ihAnd ts x r1 hts hx
        have hr1 : ∀ t2 ∈ r1, TokWF t2 = true := fun t2 ht => hts t2 (hsufx.subset ht)
        obtain ⟨hw, hsuf⟩ := ihOrL x r1 a r hr1 hwx h2
        exact ⟨hw, hsuf.trans hsufx⟩
    · intro acc ts a r hts hacc h
      match ts, hts, h with
      | [], hts, h =>
        obtain ⟨h4, h5⟩ := okPairInj h
        subst h4
        subst h5
        exact ⟨hacc, List.suffix_rfl⟩
      | t :: rest, hts, h =>
        cases t
        case kOr =>
          have h2 : (match parseAndF f rest with
              | .ok (x, r1) => orLoopF f (.disj acc x) r1
              | .error e => Except.error e) = Except.ok (a, r) := h
          match hx : parseAndF f rest with
          | .error e =>
            rw [hx] at h2
            exact Except.noConfusion h2
          | .ok (x, r1) =>
            rw [hx] at h2
            have hrest : ∀ t2 ∈ rest, TokWF t2 = true := fun t2 ht => hts t2 (by simp [ht])
            obtain ⟨hwx, hsufx⟩ := ihAnd rest x r1 hrest hx
            have hr1 : ∀ t2 ∈ r1, TokWF t2 = true := fun t2 ht => hrest t2 (hsufx.subset ht)
            have hdisj : astWF (Ast.disj acc x) = true := by
              simp [astWF, hacc, hwx]
            obtain ⟨hw, hsuf⟩ := ihOrL (Ast.disj acc x) r1 a r hr1 hdisj h2
            exact ⟨hw, (hsuf.trans hsufx).trans (List.suffix_cons _ _)⟩
        all_goals {
          obtain ⟨h4, h5⟩ := okPairInj h
          subst h4
          subst h5
          exact ⟨hacc, List.suffix_rfl⟩
        }

theorem segToks_wf (sg : Segment) (h : segWF sg = true) :
    ∀ t ∈ segToks sg, TokWF t = true := by
  match sg with
  | .nm s =>
    intro t ht
    simp only [segToks, List.mem_singleton] at ht
    subst ht
    exact h
  | .idx s i =>
    intro t ht
    simp only [segWF, Bool.and_eq_true] at h
    simp only [segToks, List.mem_cons, List.mem_singleton] at ht
    rcases ht with rfl | rfl | hf
    · exact (Bool.and_eq_true _ _).mpr h.1
    · simp only [TokWF, Bool.and_eq_true]
      constructor
      · have := natDigits_ne_nil i
        revert this
        cases natDigits i <;> simp [List.isEmpty]
      · simp only [decide_eq_true_eq]
        intro hmem
        have hall := natDigits_all_digits i
        simp only [List.all_eq_true] at hall
        exact absurd rfl (digit_ne_rb (hall _ hmem))
    · exact absurd hf (List.not_mem_nil t)
  | .key s k =>
    intro t ht
    simp only [segWF, Bool.and_eq_true] at h
    simp only [segToks, List.mem_cons, List.mem_singleton] at ht
    rcases ht with rfl | rfl | hf
    · exact (Bool.and_eq_true _ _).mpr h.1
    · simp only [TokWF, Bool.and_eq_true]
      exact h.2.1
    · exact absurd hf (List.not_mem_nil t)

theorem dotToks_wf (p : List Segment) (h : p.all segWF = true) :
    ∀ t ∈ dotToks p, TokWF t = true := by
  induction p with
  | nil =>
    intro t ht
    exact absurd ht (List.not_mem_nil t)
  | cons sg rest ih =>
    simp only [List.all_cons, Bool.and_eq_true] at h
    intro t ht
    simp only [dotToks, List.mem_cons, List.mem_append] at ht
    rcases ht with rfl | hseg | hrest
    · rfl
    · exact segToks_wf sg h.1 t hseg
    · exact ih h.2 t hrest

theorem pathToks_wf (p : List Segment) (h : p.all segWF = true) :
    ∀ t ∈ pathToks p, TokWF t = true := by
  match p with
  | [] =>
    intro t ht
    exact absurd ht (List.not_mem_nil t)
  | sg :: rest =>
    rw [pathToks_eq]
    simp only [List.all_cons, Bool.and_eq_true] at h
    intro t ht
    rcases List.mem_append.mp ht with hseg | hrest
    · exact segToks_wf sg h.1 t hseg
    · exact dotToks_wf rest h.2 t hrest

theorem astToks_wf (a : Ast) (h : astWF a = true) :
    ∀ t ∈ astToks a, TokWF t = true := by
  induction a with
  | cmp p op l =>
    simp only [astWF, Bool.and_eq_true] at h
    intro t ht
    simp only [astToks, List.mem_append, List.mem_cons, List.mem_singleton] at ht
    rcases ht with hp | rfl | rfl | hf
    · exact pathToks_wf p h.1.2 t hp
    · exact opTok_wf op
    · exact litTok_wf l h.2
    · exact absurd hf (List.not_mem_nil t)
  | conj a b iha ihb =>
    simp only [astWF, Bool.and_eq_true] at h
    intro t ht
    simp only [astToks, List.mem_cons, List.mem_append, List.mem_singleton] at ht
    rcases ht with rfl | ha | rfl | hb | rfl | hf
    · rfl
    · exact iha h.1 t ha
    · rfl
    · exact ihb h.2 t hb
    · rfl
    · exact absurd hf (List.not_mem_nil t)
  | disj a b iha ihb =>
    simp only [astWF, Bool.and_eq_true] at h
    intro t ht
    simp only [astToks, List.mem_cons, List.mem_append, List.mem_singleton] at ht
    rcases ht with rfl | ha | rfl | hb | rfl | hf
    · rfl
    · exact iha h.1 t ha
    · rfl
    · exact ihb h.2 t hb
    · rfl
    · exact absurd hf (List.not_mem_nil t)
  | neg a iha =>
    intro t ht
    simp only [astToks, List.mem_cons] at ht
    rcases ht with rfl | ha
    · rfl
    · exact iha h t ha

theorem astToks_ne_nil (a : Ast) : astToks a ≠ [] := by
  cases a <;> simp [astToks]

theorem astSize_le_len (a : Ast) : astSize a ≤ (astToks a).length := by
  induction a with
  | cmp p op l =>
    simp [astSize, astToks]
  | conj a b iha ihb =>
    simp only [astSize, astToks, List.length_cons, List.length_append]
    omega
  | disj a b iha ihb =>
    simp only [astSize, astToks, List.length_cons, List.length_append]
    omega
  | neg a iha =>
    simp only [astSize, astToks, List.length_cons]
    omega

theorem parse_ok_astWF (q : String) (a : Ast) (h : parse q = .ok a) : astWF a = true := by
  have e1 : (match lexGo q.data with
      | .error e => Except.error (QErr.syn e.msg)
      | .ok [] => Except.error (QErr.syn "empty query")
      | .ok ts =>
        match parseOrF (8 * ts.length + 8) ts with
        | .error e => Except.error (QErr.syn e.msg)
        | .ok (a, []) => Except.ok a
        | .ok (_, _ :: _) => Except.error (QErr.syn "unexpected trailing input"))
      = Except.ok a := h
  match hlex : lexGo q.data with
  | .error e =>
    rw [hlex] at e1
    exact Except.noConfusion e1
  | .ok [] =>
    rw [hlex] at e1
    exact Except.noConfusion e1
  | .ok (t0 :: ts0) =>
    rw [hlex] at e1
    have e2 : (match parseOrF (8 * (t0 :: ts0).length + 8) (t0 :: ts0) with
        | .error e => Except.error (QErr.syn e.msg)
        | .ok (a, []) => Except.ok a
        | .ok (_, _ :: _) => Except.error (QErr.syn "unexpected trailing input"))
        = Except.ok a := e1
    have hl2 : lexGoF (q.data.length + 1) q.data = .ok (t0 :: ts0) := hlex
    have hwf : ∀ t ∈ t0 :: ts0, TokWF t = true :=
      lexGoF_wf (q.data.length + 1) q.data (t0 :: ts0) hl2
    match hor : parseOrF (8 * (t0 :: ts0).length + 8) (t0 :: ts0) with
    | .error e =>
      rw [hor] at e2
      exact Except.noConfusion e2
    | .ok (x, []) =>
      rw [hor] at e2
      injection e2 with e3
      subst e3
      exact ((parsersWF _).2.2.2.1 _ x [] hwf hor).1
    | .ok (x, t1 :: r1) =>
      rw [hor] at e2
      exact Except.noConfusion e2

theorem parse_print (a : Ast) (h : astWF a = true) : parse (serialize a) = .ok a := by
  have hlex : lexGo (renderToks (astToks a)) = .ok (astToks a) :=
    lex_render (astToks a) (astToks_wf a h) _ (by omega)
  have e1 : parse (serialize a)
      = (match lexGo (renderToks (astToks a)) with
        | .error e => Except.error (QErr.syn e.msg)
        | .ok [] => Except.error (QErr.syn "empty query")
        | .ok ts =>
          match parseOrF (8 * ts.length + 8) ts with
          | .error e => Except.error (QErr.syn e.msg)
          | .ok (a, []) => Except.ok a
          | .ok (_, _ :: _) => Except.error (QErr.syn "unexpected trailing input")) := rfl
  rw [e1, hlex]
  obtain ⟨t0, ts0, hts0⟩ : ∃ t0 ts0, astToks a = t0 :: ts0 := by
    match hx : astToks a with
    | [] => exact absurd hx (astToks_ne_nil a)
    | t0 :: ts0 => exact ⟨t0, ts0, rfl⟩
  have hor : parseOrF (8 * (t0 :: ts0).length + 8) (t0 :: ts0) = .ok (a, []) := by
    rw [← hts0]
    have heq : 8 * (astToks a).length + 8 = (8 * (astToks a).length + 7) + 1 := by omega
    rw [heq]
    apply parseOrF_print a h
    have := astSize_le_len a
    omega
  rw [hts0]
  show (match parseOrF (8 * (t0 :: ts0).length + 8) (t0 :: ts0) with
      | .error e => Except.error (QErr.syn e.msg)
      | .ok (a, []) => Except.ok a
      | .ok (_, _ :: _) => Except.error (QErr.syn "unexpected trailing input"))
      = Except.ok a
  rw [hor]

/-- C3: for every syntactically valid query string, parsing, serialising the
resulting AST to the canonical textual form and parsing that serialisation
again yields the same AST, so the round trip through the canonical form is
a fixed point: `parse q = .ok a` implies `parse (serialize a) = .ok a`. -/
theorem c3_parse_serialize_fixed_point (q : String) (a : Ast) (h : parse q = .ok a) :
    parse (serialize a) = .ok a :=
  parse_print a (parse_ok_astWF q a h)

theorem c3_witness :
    parse "dataset.name = \"x\" AND (files[2].size > 10 OR NOT topics.msgpaths[foo/bar.z].max CONTAINS \"y\")"
      = .ok c3wAst
    ∧ parse (serialize c3wAst) = .ok c3wAst :=
  ⟨by decide, c3_parse_serialize_fixed_point
    "dataset.name = \"x\" AND (files[2].size > 10 OR NOT topics.msgpaths[foo/bar.z].max CONTAINS \"y\")"
    c3wAst (by decide)⟩

/-- C10: for every keyed access into the msgpaths namespace, the lexer
takes the whole unquoted bracket content up to the closing bracket as one
key token — slashes and dots included — and parsing yields a single
keyed-access path segment whose key is exactly that string: never a
syntax error and never a split into several segments. -/
theorem c10_msgpaths_keyed_access (key : String) (hne : key.data ≠ [])
    (hnb : ']' ∉ key.data) (hnd : key.data.all isDigitChar = false) :
    (∀ r : List Char, scanBr (key.data ++ ']' :: r) = some (key.data, r)) ∧
    parse (String.mk ("topics.msgpaths[".data ++ key.data ++ "].max > 0".data))
      = .ok (.cmp [.nm "topics", .key "msgpaths" key, .nm "max"] .gt (.lnum false 0 0)) := by
  refine ⟨fun r => scanBr_append key.data r hnb, ?_⟩
  have hie : key.data.isEmpty = false := by
    revert hne
    cases key.data <;> simp
  have hbr : lexStep '[' (key.data ++ "].max > 0".data)
      = .emit (.bracketed key) (".max > 0".data) := by
    rw [show (key.data ++ "].max > 0".data)
        = key.data ++ ']' :: ".max > 0".data from rfl]
    rw [lexStep_bracket, scanBr_append key.data _ hnb]
    show (if key.data.isEmpty = true then LexStep.fail "empty brackets"
        else LexStep.emit (.bracketed (String.mk key.data)) ".max > 0".data)
        = LexStep.emit (.bracketed key) ".max > 0".data
    rw [hie]
    simp
  have s1 : lexGoF (key.data.length + 26)
        ("topics.msgpaths[".data ++ key.data ++ "].max > 0".data)
      = consTok (.ident "topics") (consTok .dot (consTok (.ident "msgpaths")
          (lexGoF (key.data.length + 23)
            ('[' :: (key.data ++ "].max > 0".data))))) := rfl
  have s2 : lexGoF (key.data.length + 23) ('[' :: (key.data ++ "].max > 0".data))
      = consTok (.bracketed key) (lexGoF (key.data.length + 22) (".max > 0".data)) := by
    rw [show key.data.length + 23 = (key.data.length + 22) + 1 from rfl, lexGoF_cons, hbr]
  have s3 : lexGoF (key.data.length + 22) (".max > 0".data)
      = .ok [.dot, .ident "max", .opGt, .num false 0 0] := by
    have hstep : ∀ n : Nat, lexGoF (n + 8) (".max > 0".data)
        = .ok [.dot, .ident "max", .opGt, .num false 0 0] := fun n => rfl
    rw [show key.data.length + 22 = (key.data.length + 14) + 8 from by omega]
    exact hstep _
  have hlex : lexGo ("topics.msgpaths[".data ++ key.data ++ "].max > 0".data)
      = .ok [.ident "topics", .dot, .ident "msgpaths", .bracketed key,
          .dot, .ident "max", .opGt, .num false 0 0] := by
    have e0 : lexGo ("topics.msgpaths[".data ++ key.data ++ "].max > 0".data)
        = lexGoF (("topics.msgpaths[".data ++ key.data ++ "].max > 0".data).length + 1)
            ("topics.msgpaths[".data ++ key.data ++ "].max > 0".data) := rfl
    have hlen : ("topics.msgpaths[".data ++ key.data ++ "].max > 0".data).length + 1
        = key.data.length + 26 := by
      simp [List.length_append]
    rw [e0, hlen, s1, s2, s3]
    rfl
  have hpa : parsePathAux [Segment.nm "topics"]
        [Token.dot, .ident "msgpaths", .bracketed key, .dot, .ident "max",
          .opGt, .num false 0 0]
      = .ok ([Segment.nm "topics", .key "msgpaths" key, .nm "max"],
          [Token.opGt, .num false 0 0]) := by
    rw [parsePathAux_br, brSeg_key "msgpaths" key hnd]
    rfl
  have hcomp : parseComp [Token.ident "topics", .dot, .ident "msgpaths", .bracketed key,
        .dot, .ident "max", .opGt, .num false 0 0]
      = .ok (Ast.cmp [Segment.nm "topics", .key "msgpaths" key, .nm "max"]
          .gt (.lnum false 0 0), []) := by
    apply parseComp_tail "topics" _ _ CompOp.gt (Literal.lnum false 0 0) []
    exact hpa
  have hnot : parseNotF 70 [Token.ident "topics", .dot, .ident "msgpaths", .bracketed key,
        .dot, .ident "max", .opGt, .num false 0 0]
      = .ok (Ast.cmp [Segment.nm "topics", .key "msgpaths" key, .nm "max"]
          .gt (.lnum false 0 0), []) := hcomp
  have hand : parseAndF 71 [Token.ident "topics", .dot, .ident "msgpaths", .bracketed key,
        .dot, .ident "max", .opGt, .num false 0 0]
      = .ok (Ast.cmp [Segment.nm "topics", .key "msgpaths" key, .nm "max"]
          .gt (.lnum false 0 0), []) :=
    (andF_step 70 _ _ _ hnot).trans (andLoop_nil 69 _)
  have hor : parseOrF 72 [Token.ident "topics", .dot, .ident "msgpaths", .bracketed key,
        .dot, .ident "max", .opGt, .num false 0 0]
      = .ok (Ast.cmp [Segment.nm "topics", .key "msgpaths" key, .nm "max"]
          .gt (.lnum false 0 0), []) :=
    (orF_step 71 _ _ _ hand).trans (orLoop_nil 70 _)
  have e1 : parse (String.mk ("topics.msgpaths[".data ++ key.data ++ "].max > 0".data))
      = (match lexGo ("topics.msgpaths[".data ++ key.data ++ "].max > 0".data) with
        | .error e => Except.error (QErr.syn e.msg)
        | .ok [] => Except.error (QErr.syn "empty query")
        | .ok ts =>
          match parseOrF (8 * ts.length + 8) ts with
          | .error e => Except.error (QErr.syn e.msg)
          | .ok (a, []) => Except.ok a
          | .ok (_, _ :: _) => Except.error (QErr.syn "unexpected trailing input")) := rfl
  rw [e1, hlex]
  show (match parseOrF 72 [Token.ident "topics", .dot, .ident "msgpaths", .bracketed key,
        .dot, .ident "max", .opGt, .num false 0 0] with
      | .error e => Except.error (QErr.syn e.msg)
      | .ok (a, []) => Except.ok a
      | .ok (_, _ :: _) => Except.error (QErr.syn "unexpected trailing input"))
      = Except.ok (Ast.cmp [Segment.nm "topics", .key "msgpaths" key, .nm "max"]
          .gt (.lnum false 0 0))
  rw [hor]

theorem c10_witness :
    scanBr ("/vehicle_monitor/vehicle_speed.data".data ++ ']' :: [])
      = some ("/vehicle_monitor/vehicle_speed.data".data, [])
    ∧ parse (String.mk ("topics.msgpaths[".data
        ++ "/vehicle_monitor/vehicle_speed.data".data ++ "].max > 0".data))
      = .ok (.cmp [.nm "topics", .key "msgpaths" "/vehicle_monitor/vehicle_speed.data",
          .nm "max"] .gt (.lnum false 0 0)) :=
  ⟨(c10_msgpaths_keyed_access "/vehicle_monitor/vehicle_speed.data"
      (by decide) (by decide) (by decide)).1 [],
   (c10_msgpaths_keyed_access "/vehicle_monitor/vehicle_speed.data"
      (by decide) (by decide) (by decide)).2⟩

end RoboQL
